import Mathlib

/-!
Verification of the coraline code-graph indexer (crates/coraline) against its
natural-language specification.  The Rust sources are shallowly embedded:
pure functions become Lean functions, the SQLite store becomes an in-memory
record of tables, tree-sitter syntax trees become a concrete tree datatype,
and the file system / parser are oracles passed as explicit data.

Sections, in order:
  1. enums and record types mirroring `src/types.rs`
  2. SHA-256 (model of the external `sha2` crate) and `src/utils.rs`
  3. concrete-syntax trees and the two extraction passes (`src/extraction.rs`)
  4. the store (`src/db.rs`) and the reference resolver (`src/resolution.rs`)
  5. the graph assembler (`src/graph.rs`)
  6. the indexer driver (`index_all`, `sync`, `index_file` of `src/extraction.rs`)
  7. theorems for claims C1 .. C10
-/

set_option maxHeartbeats 4000000
set_option maxRecDepth 10000
set_option synthInstance.maxHeartbeats 1000000

namespace Coraline

/-- `NodeKind` from `src/types.rs`. -/
inductive NodeKind where
  | file
  | module
  | class_
  | struct_
  | interface_
  | trait_
  | protocol
  | function_
  | method
  | property_
  | field_
  | variable_
  | constant_
  | enum_
  | enumMember
  | typeAlias
  | namespace_
  | parameter
  | import_
  | export_
  | route
  | component
deriving DecidableEq, Repr

/-- Rust `format!("{:?}", kind)` — the derived `Debug` rendering of `NodeKind`. -/
def nodeKindDebug : NodeKind → String
  | .file => "File"
  | .module => "Module"
  | .class_ => "Class"
  | .struct_ => "Struct"
  | .interface_ => "Interface"
  | .trait_ => "Trait"
  | .protocol => "Protocol"
  | .function_ => "Function"
  | .method => "Method"
  | .property_ => "Property"
  | .field_ => "Field"
  | .variable_ => "Variable"
  | .constant_ => "Constant"
  | .enum_ => "Enum"
  | .enumMember => "EnumMember"
  | .typeAlias => "TypeAlias"
  | .namespace_ => "Namespace"
  | .parameter => "Parameter"
  | .import_ => "Import"
  | .export_ => "Export"
  | .route => "Route"
  | .component => "Component"

/-- `EdgeKind` from `src/types.rs`. -/
inductive EdgeKind where
  | contains
  | calls
  | imports
  | exports
  | extends_
  | implements
  | references
  | typeOf
  | returns
  | instantiates
  | overrides
  | decorates
deriving DecidableEq, Repr

/-- `Language` from `src/types.rs`. -/
inductive Language where
  | typeScript
  | javaScript
  | tsx
  | jsx
  | python
  | go
  | java
  | rust
  | c
  | cpp
  | cSharp
  | php
  | ruby
  | swift
  | kotlin
  | liquid
  | blazor
  | bash
  | dart
  | elixir
  | elm
  | erlang
  | fortran
  | groovy
  | haskell
  | julia
  | lua
  | markdown
  | matlab
  | nix
  | perl
  | powershell
  | r
  | scala
  | toml
  | yaml
  | zig
  | unknown
deriving DecidableEq, Repr

/-- `Visibility` from `src/types.rs`. -/
inductive Visibility where
  | public
  | private_
  | protected_
  | internal
deriving DecidableEq, Repr

/-- Symbol node record, from `src/types.rs` (`struct Node`). -/
structure Node where
  id : String
  kind : NodeKind
  name : String
  qualified_name : String
  file_path : String
  language : Language
  start_line : Int
  end_line : Int
  start_column : Int
  end_column : Int
  docstring : Option String
  signature : Option String
  visibility : Option Visibility
  is_exported : Bool
  is_async : Bool
  is_static : Bool
  is_abstract : Bool
  decorators : Option (List String)
  type_parameters : Option (List String)
  updated_at : Int
deriving DecidableEq, Repr

/-- Edge record, from `src/types.rs` (`struct Edge`).  The `metadata` map is
never populated by the indexing code, so it is modelled as an association
list of strings. -/
structure Edge where
  source : String
  target : String
  kind : EdgeKind
  metadata : Option (List (String × String))
  line : Option Int
  column : Option Int
deriving DecidableEq, Repr

/-- `FileRecord` from `src/types.rs`. -/
structure FileRecord where
  path : String
  content_hash : String
  language : Language
  size : Nat
  modified_at : Int
  indexed_at : Int
  node_count : Int
  errors : Option (List String)
deriving DecidableEq, Repr

/-- `UnresolvedReference` from `src/types.rs`. -/
structure UnresolvedReference where
  from_node_id : String
  reference_name : String
  reference_kind : EdgeKind
  line : Int
  column : Int
  candidates : Option (List String)
deriving DecidableEq, Repr

/-! ## SHA-256

Modelled from the spec: the `sha2` crate used by `src/utils.rs` is an
external dependency whose sources are not part of this repository; the spec
(§4.8) fixes the digest as SHA-256 over the UTF-8 bytes, so the FIPS 180-4
compression function is reproduced here over `Nat` with explicit `% 2^32`
reductions. -/

/-- Truncation to a 32-bit word. -/
def w32 (n : Nat) : Nat := n % 4294967296

/-- 32-bit right rotation. -/
def rotr32 (n x : Nat) : Nat := w32 ((x >>> n) + (x <<< (32 - n)))

def sha256K : List Nat :=
  [0x428a2f98, 0x71374491, 0xb5c0fbcf, 0xe9b5dba5, 0x3956c25b, 0x59f111f1,
   0x923f82a4, 0xab1c5ed5] ++
  [0xd807aa98, 0x12835b01, 0x243185be, 0x550c7dc3, 0x72be5d74, 0x80deb1fe,
   0x9bdc06a7, 0xc19bf174] ++
  [0xe49b69c1, 0xefbe4786, 0x0fc19dc6, 0x240ca1cc, 0x2de92c6f, 0x4a7484aa,
   0x5cb0a9dc, 0x76f988da] ++
  [0x983e5152, 0xa831c66d, 0xb00327c8, 0xbf597fc7, 0xc6e00bf3, 0xd5a79147,
   0x06ca6351, 0x14292967] ++
  [0x27b70a85, 0x2e1b2138, 0x4d2c6dfc, 0x53380d13, 0x650a7354, 0x766a0abb,
   0x81c2c92e, 0x92722c85] ++
  [0xa2bfe8a1, 0xa81a664b, 0xc24b8b70, 0xc76c51a3, 0xd192e819, 0xd6990624,
   0xf40e3585, 0x106aa070] ++
  [0x19a4c116, 0x1e376c08, 0x2748774c, 0x34b0bcb5, 0x391c0cb3, 0x4ed8aa4a,
   0x5b9cca4f, 0x682e6ff3] ++
  [0x748f82ee, 0x78a5636f, 0x84c87814, 0x8cc70208, 0x90befffa, 0xa4506ceb,
   0xbef9a3f7, 0xc67178f2]

def sha256Init : List Nat :=
  [0x6a09e667, 0xbb67ae85, 0x3c6ef372, 0xa54ff53a,
   0x510e527f, 0x9b05688c, 0x1f83d9ab, 0x5be0cd19]

def bsig0 (x : Nat) : Nat := w32 ((rotr32 2 x) ^^^ (rotr32 13 x) ^^^ (rotr32 22 x))
def bsig1 (x : Nat) : Nat := w32 ((rotr32 6 x) ^^^ (rotr32 11 x) ^^^ (rotr32 25 x))
def ssig0 (x : Nat) : Nat := w32 ((rotr32 7 x) ^^^ (rotr32 18 x) ^^^ (x >>> 3))
def ssig1 (x : Nat) : Nat := w32 ((rotr32 17 x) ^^^ (rotr32 19 x) ^^^ (x >>> 10))

/-- SHA-256 message padding: append `0x80`, zero bytes, and the 64-bit
big-endian bit length, reaching a multiple of 64 bytes. -/
def sha256Pad (msg : List Nat) : List Nat :=
  let len := msg.length
  let zeros := (64 - ((len + 9) % 64)) % 64
  let bitLen := len * 8
  msg ++ [0x80] ++ List.replicate zeros 0 ++
    [(bitLen >>> 56) % 256, (bitLen >>> 48) % 256, (bitLen >>> 40) % 256,
     (bitLen >>> 32) % 256, (bitLen >>> 24) % 256, (bitLen >>> 16) % 256,
     (bitLen >>> 8) % 256, bitLen % 256]

/-- Split a list into 64-byte chunks; `n` is the number of chunks, which for
a padded message is `length / 64`. -/
def sha256ChunksAux : Nat → List Nat → List (List Nat)
  | 0, _ => []
  | n + 1, bytes => bytes.take 64 :: sha256ChunksAux n (bytes.drop 64)

/-- Split a padded message into its 64-byte chunks. -/
def sha256Chunks (bytes : List Nat) : List (List Nat) :=
  sha256ChunksAux (bytes.length / 64) bytes

/-- Combine four bytes into a big-endian 32-bit word for each of the 16
positions of a chunk. -/
def sha256Words : List Nat → List Nat
  | b0 :: b1 :: b2 :: b3 :: rest =>
      (b0 <<< 24 + b1 <<< 16 + b2 <<< 8 + b3) :: sha256Words rest
  | _ => []

/-- Extend the 16 message words to 64; `acc` holds the words produced so far
in reverse order. -/
def sha256Extend (fuel : Nat) (acc : List Nat) : List Nat :=
  match fuel with
  | 0 => acc.reverse
  | fuel + 1 =>
      let wm2 := acc.getD 1 0
      let wm7 := acc.getD 6 0
      let wm15 := acc.getD 14 0
      let wm16 := acc.getD 15 0
      sha256Extend fuel (w32 (ssig1 wm2 + wm7 + ssig0 wm15 + wm16) :: acc)

/-- One round of the SHA-256 compression function. -/
def sha256Round (state : List Nat) (kw : Nat × Nat) : List Nat :=
  match state with
  | [a, b, c, d, e, f, g, h] =>
      let t1 := w32 (h + bsig1 e + ((e &&& f) ^^^ ((0xffffffff - e) &&& g)) + kw.1 + kw.2)
      let t2 := w32 (bsig0 a + ((a &&& b) ^^^ (a &&& c) ^^^ (b &&& c)))
      [w32 (t1 + t2), a, b, c, w32 (d + t1), e, f, g]
  | s => s

/-- Process one 64-byte chunk. -/
def sha256Chunk (h : List Nat) (chunk : List Nat) : List Nat :=
  let w := sha256Extend 48 (sha256Words chunk).reverse
  let final := (sha256K.zip w).foldl sha256Round h
  (h.zip final).map fun p => w32 (p.1 + p.2)

/-- SHA-256 digest (as 32 bytes) of a byte sequence. -/
def sha256Bytes (msg : List Nat) : List Nat :=
  let h := (sha256Chunks (sha256Pad msg)).foldl sha256Chunk sha256Init
  h.foldr (fun word acc =>
    (word >>> 24) % 256 :: (word >>> 16) % 256 :: (word >>> 8) % 256 :: word % 256 :: acc) []

/-- UTF-8 encoding of one character, as byte values. -/
def utf8EncodeCharNat (c : Char) : List Nat :=
  let n := c.toNat
  if n < 0x80 then [n]
  else if n < 0x800 then
    [0xc0 + (n >>> 6), 0x80 + (n &&& 0x3f)]
  else if n < 0x10000 then
    [0xe0 + (n >>> 12), 0x80 + ((n >>> 6) &&& 0x3f), 0x80 + (n &&& 0x3f)]
  else
    [0xf0 + (n >>> 18), 0x80 + ((n >>> 12) &&& 0x3f), 0x80 + ((n >>> 6) &&& 0x3f),
     0x80 + (n &&& 0x3f)]

/-- UTF-8 bytes of a string (`input.as_bytes()` in Rust). -/
def utf8Bytes (s : String) : List Nat :=
  s.data.foldr (fun c acc => utf8EncodeCharNat c ++ acc) []

/-- Lowercase hex rendering of one byte. -/
def hexByte (b : Nat) : String :=
  let digit := fun (n : Nat) =>
    if n < 10 then Char.ofNat (48 + n) else Char.ofNat (87 + n)
  String.mk [digit (b / 16), digit (b % 16)]

/-- Lowercase hex rendering of a byte list (`hex::encode`). -/
def hexEncode (bytes : List Nat) : String :=
  String.join (bytes.map hexByte)

/-- `hash_sha256` from `src/utils.rs`: hex-encoded SHA-256 of the UTF-8 bytes
of the input string. -/
def hash_sha256 (input : String) : String :=
  hexEncode (sha256Bytes (utf8Bytes input))

/-- `node_id_for_symbol` from `src/utils.rs`. -/
def node_id_for_symbol (file_path kind qualified_name : String)
    (start_line : Int) : String :=
  hash_sha256 (file_path ++ "|" ++ kind ++ "|" ++ qualified_name ++ "|" ++
    toString start_line)

/-- Rust `str::to_ascii_lowercase` on one character. -/
def asciiLowerChar (c : Char) : Char :=
  if 'A' ≤ c ∧ c ≤ 'Z' then Char.ofNat (c.toNat + 32) else c

/-- Rust `str::to_ascii_lowercase`. -/
def to_ascii_lowercase (s : String) : String :=
  String.mk (s.data.map asciiLowerChar)

/-- The node-identifier convention exactly as the specification words it
(§4.8): hex-encoded SHA-256 of the UTF-8 string
`<file_path>|<kind_lowercase>|<qualified_name>|<start_line>`. -/
def spec_node_identifier (file_path kindTag qualified_name : String)
    (start_line : Int) : String :=
  hexEncode (sha256Bytes (utf8Bytes
    (file_path ++ "|" ++ to_ascii_lowercase kindTag ++ "|" ++ qualified_name ++
      "|" ++ toString start_line)))

/-- Sanity check for the SHA-256 model: FIPS 180-4 test vector for `"abc"`. -/
theorem hash_sha256_abc :
    hash_sha256 "abc" =
      "ba7816bf8f01cfea414140de5dae2223b00361a396177a9cb410ff61f20015ad" := by
  decide

/-! ## Concrete syntax trees and the extraction passes (`src/extraction.rs`)

A tree-sitter node is modelled as its kind string, its source text
(`utf8_text`), its start/end positions, its named fields and its child list.
`CSTFields` and `CSTList` are separate mutual inductives so that all walks
are plain structural recursion. -/

mutual
/-- A tree-sitter syntax node. -/
inductive CST where
  | node (kind text : String) (startRow startCol endRow endCol : Nat)
      (fields : CSTFields) (children : CSTList)
/-- The named fields of a syntax node. -/
inductive CSTFields where
  | nil
  | cons (name : String) (t : CST) (rest : CSTFields)
/-- A list of syntax nodes. -/
inductive CSTList where
  | nil
  | cons (head : CST) (tail : CSTList)
end

def CST.kind : CST → String
  | .node k _ _ _ _ _ _ _ => k

def CST.text : CST → String
  | .node _ t _ _ _ _ _ _ => t

def CST.startRow : CST → Nat
  | .node _ _ r _ _ _ _ _ => r

def CST.startCol : CST → Nat
  | .node _ _ _ c _ _ _ _ => c

def CST.endRow : CST → Nat
  | .node _ _ _ _ r _ _ _ => r

def CST.endCol : CST → Nat
  | .node _ _ _ _ _ c _ _ => c

def CST.fields : CST → CSTFields
  | .node _ _ _ _ _ _ f _ => f

def CST.children : CST → CSTList
  | .node _ _ _ _ _ _ _ c => c

/-- `node.child_by_field_name(name)`. -/
def child_by_field_name (t : CST) (name : String) : Option CST :=
  go t.fields
where
  go : CSTFields → Option CST
    | .nil => none
    | .cons n c rest => if n = name then some c else go rest

/-- Build a `CSTFields` from a list. -/
def fieldsOf : List (String × CST) → CSTFields
  | [] => .nil
  | (n, t) :: rest => .cons n t (fieldsOf rest)

/-- Build a `CSTList` from a list. -/
def listOf : List CST → CSTList
  | [] => .nil
  | t :: rest => .cons t (listOf rest)

/-- Association-list lookup, modelling `HashMap::get`. -/
def alLookup {α : Type} : List (String × α) → String → Option α
  | [], _ => none
  | (k, v) :: rest, key => if k = key then some v else alLookup rest key

/-- Association-list insert, modelling `HashMap::insert` (replace). -/
def alInsert {α : Type} : List (String × α) → String → α → List (String × α)
  | [], key, v => [(key, v)]
  | (k, w) :: rest, key, v =>
      if k = key then (key, v) :: rest else (k, w) :: alInsert rest key v

/-- `map.entry(key).or_default().push(v)` on a map of lists. -/
def alPush : List (String × List String) → String → String →
    List (String × List String)
  | [], key, v => [(key, [v])]
  | (k, vs) :: rest, key, v =>
      if k = key then (key, vs ++ [v]) :: rest else (k, vs) :: alPush rest key v

/-- The in-file symbol index from `src/extraction.rs` (`struct SymbolIndex`). -/
structure SymbolIndex where
  by_name : List (String × List String) := []
  by_key : List (String × String) := []
  callable_ids : List String := []

/-- `map_node_kind` from `src/extraction.rs`: language-specific classifier
from grammar node-kind string to (semantic kind, is-container). -/
def map_node_kind (kind : String) (language : Language) :
    Option NodeKind × Bool :=
  match language with
  | .rust =>
      if kind = "function_item" then (some .function_, false)
      else if kind = "struct_item" then (some .struct_, true)
      else if kind = "enum_item" then (some .enum_, true)
      else if kind = "trait_item" then (some .trait_, true)
      else if kind = "use_declaration" then (some .import_, false)
      else if kind = "mod_item" then (some .module, true)
      else if kind = "use_item" then (some .export_, false)
      else (none, false)
  | .javaScript | .jsx | .typeScript | .tsx =>
      if kind = "function_declaration" then (some .function_, false)
      else if kind = "class_declaration" then (some .class_, true)
      else if kind = "method_definition" then (some .method, false)
      else if kind = "interface_declaration" then (some .interface_, true)
      else if kind = "type_alias_declaration" then (some .typeAlias, false)
      else if kind = "import_declaration" then (some .import_, false)
      else if kind = "export_statement" ∨ kind = "export_declaration" then
        (some .export_, false)
      else (none, false)
  | .blazor =>
      if kind = "element" then (some .component, true) else (none, false)
  | _ => (none, false)

/-- `is_callable_kind` from `src/extraction.rs`. -/
def is_callable_kind (kind : NodeKind) : Bool :=
  match kind with
  | .function_ | .method => true
  | _ => false

/-- `is_call_expression` from `src/extraction.rs`. -/
def is_call_expression (kind : String) (language : Language) : Bool :=
  match language with
  | .rust => kind = "call_expression" ∨ kind = "macro_invocation"
  | .javaScript | .jsx | .typeScript | .tsx => kind = "call_expression"
  | _ => false

/-- `node_name` from `src/extraction.rs`: resolve the name through the
`name` / `identifier` / `property` / `tag_name` field accessors. -/
def node_name (t : CST) : Option String :=
  ((((child_by_field_name t "name").orElse
      (fun _ => child_by_field_name t "identifier")).orElse
      (fun _ => child_by_field_name t "property")).orElse
      (fun _ => child_by_field_name t "tag_name")).map CST.text

/-- `node_key` from `src/extraction.rs`: `format!("{:?}:{}:{}:{}", ...)`. -/
def node_key (kind : NodeKind) (row col : Nat) (name : String) : String :=
  nodeKindDebug kind ++ ":" ++ toString row ++ ":" ++ toString col ++ ":" ++ name

/-- If `sep` is a prefix of `cs`, the remainder of `cs` after it. -/
def dropPrefixChars : List Char → List Char → Option (List Char)
  | [], cs => some cs
  | _, [] => none
  | s :: ss, c :: cc => if s = c then dropPrefixChars ss cc else none

/-- Character-level splitting on a (non-empty) separator; `fuel` bounds the
recursion and is instantiated with the input length. -/
def splitOnAuxChars (sep : List Char) : Nat → List Char → List Char →
    List (List Char)
  | _, [], acc => [acc.reverse]
  | 0, cs, acc => [acc.reverse ++ cs]
  | fuel + 1, c :: rest, acc =>
      match dropPrefixChars sep (c :: rest) with
      | some remaining => acc.reverse :: splitOnAuxChars sep fuel remaining []
      | none => splitOnAuxChars sep fuel rest (c :: acc)

/-- Rust `str::split` collected into a list (also the semantics of
`String.splitOn`). -/
def strSplitOn (s sep : String) : List String :=
  if sep = "" then [s]
  else (splitOnAuxChars sep.data s.data.length s.data []).map String.mk

/-- Rust `str::trim` (whitespace from both ends). -/
def strTrim (s : String) : String :=
  String.mk
    (((s.data.dropWhile Char.isWhitespace).reverse.dropWhile
      Char.isWhitespace).reverse)

/-- Last segment of `s` under separator `sep`: `s.rsplit(sep).next()`. -/
def lastSegment (s sep : String) : String :=
  ((strSplitOn s sep).getLast?).getD s

/-- `call_name` from `src/extraction.rs`: short callee name of a call node. -/
def call_name (t : CST) (language : Language) : Option String :=
  let callee? :=
    match language with
    | .rust => child_by_field_name t "function"
    | .javaScript | .jsx | .typeScript | .tsx =>
        (child_by_field_name t "function").orElse
          (fun _ => child_by_field_name t "callee")
    | _ => none
  match callee? with
  | none => none
  | some callee =>
      let trimmed := strTrim callee.text
      if trimmed = "" then none
      else
        let name := lastSegment (lastSegment trimmed "::") "."
        if name = "" then none else some name

/-- `ImportSymbol` from `src/extraction.rs`. -/
structure ImportSymbol where
  local_name : String
  module_path : String
  export_name : Option String
deriving DecidableEq, Repr

/-- `ExportSymbol` from `src/extraction.rs`. -/
structure ExportSymbol where
  name : String
  module_path : Option String
deriving DecidableEq, Repr

/-- Rust `List.isSuffixOf`-based `str::ends_with`. -/
def strEndsWith (s suffix : String) : Bool :=
  suffix.data.isSuffixOf s.data

/-- Repeatedly strip a suffix: Rust `str::trim_end_matches`. -/
def trimEndMatchesAux (suffix : String) : Nat → String → String
  | 0, s => s
  | fuel + 1, s =>
      if suffix ≠ "" ∧ strEndsWith s suffix then
        trimEndMatchesAux suffix fuel (s.dropRight suffix.length)
      else s

/-- Rust `str::trim_end_matches`. -/
def trim_end_matches (s suffix : String) : String :=
  trimEndMatchesAux suffix s.length s

/-- Rust `str::trim_matches(['"', '\''])`: strip quotes from both ends. -/
def trimQuotes (s : String) : String :=
  let isQuote := fun (c : Char) => c = '"' ∨ c = '\''
  String.mk (((s.data.dropWhile isQuote).reverse.dropWhile isQuote).reverse)

/-- Rust `Path::parent` on a relative path string: `none` for the empty
path, otherwise the portion before the last separator (possibly empty). -/
def parentDir (s : String) : Option String :=
  if s = "" then none
  else
    let parts := strSplitOn s "/"
    if parts.length ≤ 1 then some ""
    else some (String.intercalate "/" parts.dropLast)

/-- Last path component (Rust `Path::file_name`, for well-formed paths). -/
def fileNameOf (s : String) : String :=
  lastSegment s "/"

/-- Rust `Path::file_stem` as a string, for well-formed relative paths. -/
def fileStem (s : String) : String :=
  let name := fileNameOf s
  let parts := strSplitOn name "."
  if parts.length ≤ 1 then name
  else if parts.headD "" = "" ∧ parts.length = 2 then name
  else String.intercalate "." parts.dropLast

/-- `PathBuf::join` on relative path strings. -/
def joinPath (a b : String) : String :=
  if a = "" then b else a ++ "/" ++ b

/-- `import_module_path` from `src/extraction.rs`. -/
def import_module_path (t : CST) (language : Language) : Option String :=
  let field :=
    match language with
    | .rust => "path"
    | .javaScript | .jsx | .typeScript | .tsx => "source"
    | _ => "source"
  match child_by_field_name t field with
  | none => none
  | some child =>
      let trimmed := trimQuotes (strTrim child.text)
      if trimmed = "" then none else some trimmed

/-- `collect_import_specifier` from `src/extraction.rs`. -/
def collect_import_specifier (module_path : String) (t : CST) :
    List ImportSymbol :=
  let export_name := (child_by_field_name t "name").map CST.text
  let aliasName := (child_by_field_name t "alias").map CST.text
  match export_name with
  | some export_name =>
      [{ local_name := aliasName.getD export_name, module_path := module_path,
         export_name := some export_name }]
  | none => []

/-- `collect_named_imports` from `src/extraction.rs`. -/
def collect_named_imports (module_path : String) : CSTList → List ImportSymbol
  | .nil => []
  | .cons c rest =>
      (if c.kind = "import_specifier" then collect_import_specifier module_path c
       else []) ++ collect_named_imports module_path rest

/-- `collect_import_symbols` from `src/extraction.rs` (iterating the children
of the import clause). -/
def collect_import_symbols (module_path : String) : CSTList → List ImportSymbol
  | .nil => []
  | .cons c rest =>
      (if c.kind = "identifier" then
        [{ local_name := c.text, module_path := module_path, export_name := none }]
      else if c.kind = "namespace_import" then
        match ((child_by_field_name c "name").orElse
            (fun _ => child_by_field_name c "alias")).map CST.text with
        | some name =>
            [{ local_name := name, module_path := module_path, export_name := none }]
        | none => []
      else if c.kind = "named_imports" then
        collect_named_imports module_path c.children
      else if c.kind = "import_specifier" then
        collect_import_specifier module_path c
      else []) ++ collect_import_symbols module_path rest

/-- `rust_use_path` from `src/extraction.rs`. -/
def rust_use_path (t : CST) : Option String :=
  match child_by_field_name t "path" with
  | none => none
  | some child =>
      let raw := strTrim child.text
      if raw = "" then none else some raw

/-- `rust_use_alias` from `src/extraction.rs`. -/
def rust_use_alias (t : CST) : Option String :=
  (child_by_field_name t "alias").map CST.text

/-- `import_symbols` from `src/extraction.rs`. -/
def import_symbols (t : CST) (language : Language) : List ImportSymbol :=
  match import_module_path t language with
  | none => []
  | some module_path =>
      match language with
      | .javaScript | .jsx | .typeScript | .tsx =>
          let imports :=
            match child_by_field_name t "import_clause" with
            | some clause => collect_import_symbols module_path clause.children
            | none => []
          if imports.isEmpty then
            [{ local_name := module_path, module_path := module_path,
               export_name := none }]
          else imports
      | _ =>
          let original_name := lastSegment module_path "::"
          let aliasName := rust_use_alias t
          [{ local_name := aliasName.getD original_name,
             module_path := module_path,
             export_name := aliasName.map (fun _ => original_name) }]

/-- `export_module_path` from `src/extraction.rs`. -/
def export_module_path (t : CST) : Option String :=
  match child_by_field_name t "source" with
  | none => none
  | some child =>
      let trimmed := trimQuotes (strTrim child.text)
      if trimmed = "" then none else some trimmed

mutual
/-- `collect_export_names` from `src/extraction.rs`. -/
def collect_export_names : CST → List String
  | .node kind _ _ _ _ _ fields children =>
      let t : CST := .node kind "" 0 0 0 0 fields .nil
      if kind = "export_specifier" then
        let aliasName := (child_by_field_name t "alias").map CST.text
        match aliasName.orElse
            (fun _ => (child_by_field_name t "name").map CST.text) with
        | some n => [n]
        | none => []
      else if kind = "function_declaration" ∨ kind = "class_declaration" ∨
          kind = "interface_declaration" ∨ kind = "type_alias_declaration" ∨
          kind = "enum_declaration" ∨ kind = "variable_declarator" then
        match (child_by_field_name t "name").map CST.text with
        | some n => [n]
        | none => []
      else collect_export_names_list children
termination_by structural t => t
/-- Child-list traversal for `collect_export_names`. -/
def collect_export_names_list : CSTList → List String
  | .nil => []
  | .cons c rest => collect_export_names c ++ collect_export_names_list rest
termination_by structural l => l
end

/-- `export_symbols` from `src/extraction.rs`. -/
def export_symbols (t : CST) (language : Language) : List ExportSymbol :=
  match language with
  | .javaScript | .jsx | .typeScript | .tsx =>
      let module_path := export_module_path t
      let names := collect_export_names t
      names.map fun name => { name := name, module_path := module_path }
  | .rust =>
      match rust_use_path t with
      | none => []
      | some path =>
          [{ name := lastSegment path "::", module_path := some path }]
  | _ => []

/-- `build_import_signature` from `src/extraction.rs`. -/
def build_import_signature (module_path : String) (export_name : Option String) :
    String :=
  match export_name with
  | some name => module_path ++ "|export=" ++ name
  | none => module_path

/-- `module_name` from `src/extraction.rs`. -/
def module_name (t : CST) (language : Language) : Option String :=
  match language with
  | .rust => (child_by_field_name t "name").map CST.text
  | _ => none

/-- `rust_module_target` from `src/extraction.rs`; `fs` is the
file-existence oracle over project-relative paths. -/
def rust_module_target (fs : String → Bool) (file_path name : String) :
    Option String :=
  let base_dir := (parentDir file_path).getD ""
  let candidate_file := joinPath base_dir (name ++ ".rs")
  let candidate_mod := joinPath (joinPath base_dir name) "mod.rs"
  if fs candidate_file then some candidate_file
  else if fs candidate_mod then some candidate_mod
  else none

/-- Accumulator of extraction pass 1 (the `nodes`/`edges`/`symbol_index`
buffers threaded through `walk_tree_collect`). -/
structure CollectAcc where
  nodes : List Node := []
  edges : List Edge := []
  index : SymbolIndex := {}

/-- Accumulator of extraction pass 2 (the `edges`/`unresolved_refs` buffers
threaded through `walk_tree_calls`). -/
structure CallsAcc where
  edges : List Edge := []
  unresolved : List UnresolvedReference := []
deriving Repr

/-- Build a symbol `Node` the way `walk_tree_collect` does. -/
def mkCollectedNode (file_path : String) (language : Language) (now_ms : Int)
    (kind : NodeKind) (name qualified_name id : String)
    (srow scol erow ecol : Nat) : Node :=
  { id := id, kind := kind, name := name, qualified_name := qualified_name,
    file_path := file_path, language := language,
    start_line := (srow : Int) + 1, end_line := (erow : Int) + 1,
    start_column := (scol : Int), end_column := (ecol : Int),
    docstring := none, signature := none, visibility := none,
    is_exported := false, is_async := false, is_static := false,
    is_abstract := false, decorators := none, type_parameters := none,
    updated_at := now_ms }

/-- A `Contains`-family edge the way `walk_tree_collect` emits it. -/
def mkStructuralEdge (kind : EdgeKind) (source target : String)
    (srow scol : Nat) : Edge :=
  { source := source, target := target, kind := kind, metadata := none,
    line := some ((srow : Int) + 1), column := some (scol : Int) }

/-- `add_import_nodes` from `src/extraction.rs`. -/
def add_import_nodes (language : Language) (file_path parent_id : String)
    (now_ms : Int) (t : CST) (acc : CollectAcc) : CollectAcc :=
  let imports := import_symbols t language
  if imports.isEmpty then acc
  else
    imports.foldl
      (fun acc import_ =>
        let qualified_name :=
          file_path ++ "::import::" ++ import_.local_name ++ "::" ++
            import_.module_path
        let id := node_id_for_symbol file_path "import" qualified_name
          ((t.startRow : Int) + 1)
        let signature :=
          build_import_signature import_.module_path import_.export_name
        let node := { mkCollectedNode file_path language now_ms .import_
            import_.local_name qualified_name id t.startRow t.startCol
            t.endRow t.endCol with
          signature := some signature }
        { acc with
          nodes := acc.nodes ++ [node],
          edges := acc.edges ++
            [mkStructuralEdge .contains parent_id id t.startRow t.startCol,
             mkStructuralEdge .imports parent_id id t.startRow t.startCol] })
      acc

/-- `add_module_node` from `src/extraction.rs`. -/
def add_module_node (fs : String → Bool) (language : Language)
    (file_path parent_id : String) (now_ms : Int) (t : CST)
    (acc : CollectAcc) : CollectAcc :=
  match module_name t language with
  | none => acc
  | some name =>
      let qualified_name := file_path ++ "::" ++ name
      let id := node_id_for_symbol file_path "module" qualified_name
        ((t.startRow : Int) + 1)
      let signature :=
        match language with
        | .rust => rust_module_target fs file_path name
        | _ => none
      let node := { mkCollectedNode file_path language now_ms .module name
          qualified_name id t.startRow t.startCol t.endRow t.endCol with
        signature := signature }
      { acc with
        nodes := acc.nodes ++ [node],
        edges := acc.edges ++
          [mkStructuralEdge .contains parent_id id t.startRow t.startCol] }

/-- `add_export_nodes` from `src/extraction.rs`. -/
def add_export_nodes (language : Language) (file_path parent_id : String)
    (now_ms : Int) (t : CST) (acc : CollectAcc) : CollectAcc :=
  let exports := export_symbols t language
  if exports.isEmpty then acc
  else
    exports.foldl
      (fun acc export_ =>
        let qualified_name := file_path ++ "::export::" ++ export_.name
        let id := node_id_for_symbol file_path "export" qualified_name
          ((t.startRow : Int) + 1)
        let node := { mkCollectedNode file_path language now_ms .export_
            export_.name qualified_name id t.startRow t.startCol
            t.endRow t.endCol with
          signature := export_.module_path,
          is_exported := true }
        { acc with
          nodes := acc.nodes ++ [node],
          edges := acc.edges ++
            [mkStructuralEdge .contains parent_id id t.startRow t.startCol,
             mkStructuralEdge .exports parent_id id t.startRow t.startCol] })
      acc

mutual
/-- `walk_tree_collect` from `src/extraction.rs` (extraction pass 1).  The
scope stack is passed downward (the Rust code pushes before recursing into
children and pops afterwards, so the stack seen by the children is the
parameter extended, and the caller keeps its own). -/
def walk_tree_collect (fs : String → Bool) (file_path : String)
    (language : Language) (now_ms : Int) :
    CST → List String → Option String → CollectAcc → CollectAcc
  | t@(.node tkind _ srow scol _ _ _ tchildren), stack, parent_id, acc =>
      let km := map_node_kind tkind language
      let kind? := km.1
      let is_container := km.2
      if kind? = some .import_ ∧ parent_id.isSome then
        add_import_nodes language file_path (parent_id.getD "") now_ms t acc
      else if kind? = some .module ∧ parent_id.isSome then
        add_module_node fs language file_path (parent_id.getD "") now_ms t acc
      else
        let handled_export := kind? = some .export_ ∧ parent_id.isSome
        let acc :=
          if handled_export then
            add_export_nodes language file_path (parent_id.getD "") now_ms t acc
          else acc
        let name? :=
          if handled_export then none
          else match kind? with
            | some _ => node_name t
            | none => none
        match kind?, name? with
        | some kind, some name =>
            let qualified_name :=
              if stack.isEmpty then file_path ++ "::" ++ name
              else file_path ++ "::" ++ String.intercalate "::" stack ++ "::" ++
                name
            let id := node_id_for_symbol file_path
              (to_ascii_lowercase (nodeKindDebug kind)) qualified_name
              ((srow : Int) + 1)
            let node := mkCollectedNode file_path language now_ms kind name
              qualified_name id srow scol t.endRow t.endCol
            let index :=
              if is_callable_kind kind then
                { by_key := alInsert acc.index.by_key
                    (node_key kind srow scol name) id,
                  by_name := alPush acc.index.by_name name id,
                  callable_ids := acc.index.callable_ids ++ [id] }
              else acc.index
            let edges :=
              match parent_id with
              | some parent_id =>
                  acc.edges ++
                    [mkStructuralEdge .contains parent_id id srow scol] ++
                    (if kind = .import_ then
                      [mkStructuralEdge .imports parent_id id srow scol]
                     else []) ++
                    (if kind = .export_ then
                      [mkStructuralEdge .exports parent_id id srow scol]
                     else [])
              | none => acc.edges
            let acc : CollectAcc :=
              { nodes := acc.nodes ++ [node], edges := edges, index := index }
            let stack := if is_container then stack ++ [name] else stack
            let next_parent := if is_container then some id else parent_id
            walk_tree_collect_list fs file_path language now_ms tchildren stack
              next_parent acc
        | _, _ =>
            walk_tree_collect_list fs file_path language now_ms tchildren stack
              parent_id acc
termination_by structural t stack parent_id acc => t

/-- Child-list traversal for `walk_tree_collect`. -/
def walk_tree_collect_list (fs : String → Bool) (file_path : String)
    (language : Language) (now_ms : Int) :
    CSTList → List String → Option String → CollectAcc → CollectAcc
  | .nil, _, _, acc => acc
  | .cons c rest, stack, parent_id, acc =>
      walk_tree_collect_list fs file_path language now_ms rest stack parent_id
        (walk_tree_collect fs file_path language now_ms c stack parent_id acc)
termination_by structural l stack parent_id acc => l
end

/-- The call-site handling block of `walk_tree_calls` (the body of
`if is_call_expression(...)`): with the current scope-stack top as source,
emit a Calls edge on a unique in-file `by_name` match, an unresolved
reference with candidates on an ambiguous match, and an unresolved
reference without candidates on no match.  A call site with an empty scope
stack is dropped. -/
def handle_call_expression (language : Language) (symbol_index : SymbolIndex)
    (scope_stack : List String) (t : CST) (acc : CallsAcc) : CallsAcc :=
  match scope_stack.getLast? with
  | none => acc
  | some source_id =>
      match call_name t language with
      | none => acc
      | some callee_name =>
          match alLookup symbol_index.by_name callee_name with
          | some [target] =>
              { acc with edges := acc.edges ++
                  [{ source := source_id, target := target, kind := .calls,
                     metadata := none, line := some ((t.startRow : Int) + 1),
                     column := some (t.startCol : Int) }] }
          | some targets =>
              { acc with unresolved := acc.unresolved ++
                  [{ from_node_id := source_id, reference_name := callee_name,
                     reference_kind := .calls, line := (t.startRow : Int) + 1,
                     column := (t.startCol : Int),
                     candidates := some targets }] }
          | none =>
              { acc with unresolved := acc.unresolved ++
                  [{ from_node_id := source_id, reference_name := callee_name,
                     reference_kind := .calls, line := (t.startRow : Int) + 1,
                     column := (t.startCol : Int), candidates := none }] }

/-- The scope-stack update at the top of `walk_tree_calls`: push the
callable id when the node re-finds itself in `by_key` under the same
`(kind, start, name)` key pass 1 used. -/
def calls_scope_push (language : Language) (symbol_index : SymbolIndex)
    (t : CST) (scope_stack : List String) : List String :=
  let km := map_node_kind t.kind language
  let kind? := km.1
  let name? := if kind?.isSome then node_name t else none
  match kind?, name? with
  | some kind, some name =>
      if is_callable_kind kind then
        match alLookup symbol_index.by_key
            (node_key kind t.startRow t.startCol name) with
        | some id => scope_stack ++ [id]
        | none => scope_stack
      else scope_stack
  | _, _ => scope_stack

mutual
/-- `walk_tree_calls` from `src/extraction.rs` (extraction pass 2).  The
callable scope stack is passed downward; the push/pop pair around the
recursion into children becomes extending the parameter for the children
only. -/
def walk_tree_calls (language : Language) (symbol_index : SymbolIndex) :
    CST → List String → CallsAcc → CallsAcc
  | t@(.node tkind _ _ _ _ _ _ tchildren), scope_stack, acc =>
      let scope_stack := calls_scope_push language symbol_index t scope_stack
      let acc :=
        if is_call_expression tkind language then
          handle_call_expression language symbol_index scope_stack t acc
        else acc
      walk_tree_calls_list language symbol_index tchildren scope_stack acc
termination_by structural t scope_stack acc => t

/-- Child-list traversal for `walk_tree_calls`. -/
def walk_tree_calls_list (language : Language) (symbol_index : SymbolIndex) :
    CSTList → List String → CallsAcc → CallsAcc
  | .nil, _, acc => acc
  | .cons c rest, scope_stack, acc =>
      walk_tree_calls_list language symbol_index rest scope_stack
        (walk_tree_calls language symbol_index c scope_stack acc)
termination_by structural l scope_stack acc => l
end

/-- Which languages `language_to_parser` from `src/extraction.rs` has a
grammar for (the `Some` arms of its match). -/
def parser_available (language : Language) : Bool :=
  match language with
  | .php | .swift | .kotlin | .liquid | .markdown | .toml | .unknown => false
  | _ => true

/-- `extract_nodes` from `src/extraction.rs`: run both passes over a parsed
tree.  `parse` is the tree-sitter oracle: the tree (if any) that the
grammar of `language` produces for `source`. -/
def extract_nodes (fs : String → Bool)
    (parse : Language → String → Option CST) (file_path source : String)
    (language : Language) (now_ms : Int) (root_id : String) :
    List Node × List Edge × List UnresolvedReference :=
  if ¬ parser_available language then ([], [], [])
  else
    match parse language source with
    | none => ([], [], [])
    | some tree =>
        let collected := walk_tree_collect fs file_path language now_ms tree []
          (some root_id) {}
        let callsAcc := walk_tree_calls language collected.index tree []
          { edges := collected.edges, unresolved := [] }
        (collected.nodes, callsAcc.edges, callsAcc.unresolved)

/-! ## The store (`src/db.rs`)

The SQLite database is modelled as in-memory tables.  Result rows keep
insertion order; a SQL `LIMIT` with no `ORDER BY` returns the first rows in
rowid order, which for these append-only tables is insertion order. -/

/-- `UnresolvedRefRow` from `src/db.rs`: an `unresolved_refs` row with its
autoincrement id. -/
structure URow where
  id : Int
  reference : UnresolvedReference
deriving DecidableEq, Repr

/-- The store: the five tables of the schema (the `vectors` table is never
touched by the indexing core and is omitted).  `next_ref_id` is the
`AUTOINCREMENT` sequence of `unresolved_refs`. -/
structure DbState where
  files : List FileRecord := []
  nodes : List Node := []
  edges : List Edge := []
  unresolved : List URow := []
  next_ref_id : Int := 1
deriving DecidableEq, Repr

/-- `get_file_record` from `src/db.rs`. -/
def get_file_record (st : DbState) (path : String) : Option FileRecord :=
  st.files.find? (fun f => f.path = path)

/-- `list_files` from `src/db.rs`. -/
def list_files (st : DbState) : List FileRecord := st.files

/-- `upsert_file` from `src/db.rs` (`INSERT .. ON CONFLICT(path) DO UPDATE`). -/
def upsert_file (st : DbState) (file : FileRecord) : DbState :=
  if st.files.any (fun f => f.path = file.path) then
    { st with files := st.files.map (fun f => if f.path = file.path then file else f) }
  else
    { st with files := st.files ++ [file] }

/-- `insert_nodes` from `src/db.rs` (one transaction of plain INSERTs). -/
def insert_nodes (st : DbState) (nodes : List Node) : DbState :=
  { st with nodes := st.nodes ++ nodes }

/-- `insert_edges` from `src/db.rs` (one transaction of plain INSERTs). -/
def insert_edges (st : DbState) (edges : List Edge) : DbState :=
  { st with edges := st.edges ++ edges }

/-- Assign autoincrement ids from `k` upward. -/
def enumRows (k : Int) : List UnresolvedReference → List URow
  | [] => []
  | r :: rest => { id := k, reference := r } :: enumRows (k + 1) rest

/-- `insert_unresolved_refs` from `src/db.rs`: each row gets the next
autoincrement id. -/
def insert_unresolved_refs (st : DbState) (refs : List UnresolvedReference) :
    DbState :=
  { st with
      unresolved := st.unresolved ++ enumRows st.next_ref_id refs,
      next_ref_id := st.next_ref_id + refs.length }

/-- `find_nodes_by_name` from `src/db.rs` (`WHERE name = ?`). -/
def find_nodes_by_name (st : DbState) (name : String) : List Node :=
  st.nodes.filter (fun n => n.name = name)

/-- `find_exports_by_module` from `src/db.rs`
(`WHERE kind = 'export' AND signature = ?`). -/
def find_exports_by_module (st : DbState) (module_path : String) : List Node :=
  st.nodes.filter (fun n => n.kind = .export_ ∧ n.signature = some module_path)

/-- `get_node_by_id` from `src/db.rs`. -/
def get_node_by_id (st : DbState) (node_id : String) : Option Node :=
  st.nodes.find? (fun n => n.id = node_id)

/-- `get_edges_by_source` from `src/db.rs`
(`WHERE source = ? [AND kind = ?] LIMIT ?`). -/
def get_edges_by_source (st : DbState) (source_id : String)
    (kind : Option EdgeKind) (limit : Nat) : List Edge :=
  (st.edges.filter (fun e => e.source = source_id ∧
    (kind.isNone ∨ kind = some e.kind))).take limit

/-- `get_edges_by_target` from `src/db.rs`. -/
def get_edges_by_target (st : DbState) (target_id : String)
    (kind : Option EdgeKind) (limit : Nat) : List Edge :=
  (st.edges.filter (fun e => e.target = target_id ∧
    (kind.isNone ∨ kind = some e.kind))).take limit

/-- `list_unresolved_refs` from `src/db.rs` (`LIMIT ?`, rowid order). -/
def list_unresolved_refs (st : DbState) (limit : Nat) : List URow :=
  st.unresolved.take limit

/-- `delete_unresolved_refs` from `src/db.rs` (one transaction of
`DELETE .. WHERE id = ?` per id). -/
def delete_unresolved_refs (st : DbState) (ids : List Int) : DbState :=
  { st with unresolved := st.unresolved.filter (fun r => ¬ ids.contains r.id) }

/-- Modelled from the spec: the edge cascade of `delete_file`.  The file
`src/db/schema.sql` (pulled in with `include_str!`) is not under `src/`;
spec §4.1 states the schema declares `edges` foreign keys to `nodes(id)`
`ON DELETE CASCADE`, and `open_database` enables foreign-key enforcement,
so deleting a set of nodes deletes every edge whose source or target is one
of them. -/
def cascade_delete_edges (edges : List Edge) (deleted : List Node) : List Edge :=
  edges.filter (fun e =>
    ¬ deleted.any (fun n => n.id = e.source ∨ n.id = e.target))

/-- `delete_file` from `src/db.rs`: inside one transaction, delete the
symbol nodes of the path (the schema cascade removes their edges) and the
file record. -/
def delete_file (st : DbState) (path : String) : DbState :=
  let deleted := st.nodes.filter (fun n => n.file_path = path)
  { st with
    nodes := st.nodes.filter (fun n => ¬ n.file_path = path),
    edges := cascade_delete_edges st.edges deleted,
    files := st.files.filter (fun f => ¬ f.path = path) }

/-- A transaction that can fail at commit: on failure nothing is applied
(SQLite rolls the whole transaction back). -/
def run_transaction (commit_ok : Bool) (body : DbState → DbState)
    (st : DbState) : Except String DbState :=
  if commit_ok then .ok (body st) else .error "store error"

/-- `clear_database` from `src/db.rs` (the `AUTOINCREMENT` sequence of
`unresolved_refs` survives a `DELETE FROM`). -/
def clear_database (st : DbState) : DbState :=
  { files := [], nodes := [], edges := [], unresolved := [],
    next_ref_id := st.next_ref_id }

/-! ## The reference resolver (`src/resolution.rs`) -/

/-- `ResolveResult` from `src/resolution.rs`. -/
structure ResolveResult where
  scanned : Nat
  resolved : Nat
  remaining : Nat
deriving DecidableEq, Repr

/-- `ImportHint` from `src/resolution.rs`. -/
structure ImportHint where
  module_path : String
  export_name : Option String
deriving DecidableEq, Repr

/-- `filter_by_call_kind` from `src/resolution.rs`: keep Function/Method
nodes, dropping duplicate ids. -/
def filter_by_call_kind (nodes : List Node) : List Node :=
  go nodes []
where
  go : List Node → List String → List Node
    | [], _ => []
    | n :: rest, seen =>
        if (n.kind = .function_ ∨ n.kind = .method) ∧ ¬ seen.contains n.id then
          n :: go rest (n.id :: seen)
        else go rest seen

/-- Rust `str::split_once`. -/
def splitOnce (s sep : String) : Option (String × String) :=
  match strSplitOn s sep with
  | [] => none
  | [_] => none
  | first :: rest => some (first, String.intercalate sep rest)

/-- `parse_import_signature` from `src/resolution.rs`. -/
def parse_import_signature (signature : String) : Option ImportHint :=
  if strTrim signature = "" then none
  else
    match splitOnce signature "|export=" with
    | some (module_path, export_name) =>
        some { module_path := module_path, export_name := some export_name }
    | none => some { module_path := signature, export_name := none }

/-- `import_match_hint` from `src/resolution.rs`: the first Import node of
the same file named like the reference supplies the hint. -/
def import_match_hint (st : DbState) (from_node : Node) (symbol_name : String) :
    Option ImportHint :=
  go (find_nodes_by_name st symbol_name)
where
  go : List Node → Option ImportHint
    | [] => none
    | import_node :: rest =>
        if import_node.kind ≠ .import_ then go rest
        else if import_node.file_path = from_node.file_path then
          match import_node.signature.bind
              (fun s => parse_import_signature s) with
          | some hint => some hint
          | none => some { module_path := import_node.name, export_name := none }
        else go rest

/-- `matches_import_hint` from `src/resolution.rs`. -/
def matches_import_hint (file_path hint : String) : Bool :=
  let hint_clean := trim_end_matches (trim_end_matches (trim_end_matches
    (lastSegment hint "::") ".ts") ".tsx") ".rs"
  let path_no_ext := trim_end_matches (trim_end_matches (trim_end_matches
    file_path ".ts") ".tsx") ".rs"
  if strEndsWith path_no_ext hint_clean then true
  else
    let file_name := fileStem file_path
    if file_name = hint_clean then true
    else if strEndsWith file_path "/mod.rs" then
      let parent_name := fileNameOf ((parentDir file_path).getD "")
      parent_name = hint_clean
    else false

/-- `export_candidates` from `src/resolution.rs`. -/
def export_candidates (st : DbState) (module_path export_name : String) :
    Option (List Node) :=
  let exports := find_exports_by_module st module_path
  if exports.isEmpty then none
  else
    let exact := exports.filter (fun e => e.name = export_name)
    if exact.isEmpty then none else some exact

/-- The `import_hint.is_some_and(...)` test of the bucketing loop. -/
def hint_matches (import_hint : Option ImportHint) (file_path : String) :
    Bool :=
  match import_hint with
  | some hint => matches_import_hint file_path hint.module_path
  | none => false

/-- The locality bucketing loop of `rank_candidates`. -/
def rank_buckets (from_node : Node) (import_hint : Option ImportHint) :
    List Node → List Node × List Node × List Node × List Node
  | [] => ([], [], [], [])
  | node :: rest =>
      let (import_matches, same_file, same_dir, others) :=
        rank_buckets from_node import_hint rest
      if hint_matches import_hint node.file_path then
        (node :: import_matches, same_file, same_dir, others)
      else if node.file_path = from_node.file_path then
        (import_matches, node :: same_file, same_dir, others)
      else if (parentDir from_node.file_path).isSome ∧
          parentDir node.file_path = parentDir from_node.file_path then
        (import_matches, same_file, node :: same_dir, others)
      else
        (import_matches, same_file, same_dir, node :: others)

/-- `rank_candidates` from `src/resolution.rs`. -/
def rank_candidates (st : DbState) (nodes : List Node)
    (from_node : Option Node) (import_hint : Option ImportHint)
    (symbol_name : String) : List Node :=
  match from_node with
  | none => nodes
  | some from_node =>
      let viaExports :=
        match import_hint with
        | some hint =>
            export_candidates st hint.module_path
              (hint.export_name.getD symbol_name)
        | none => none
      match viaExports with
      | some exports => exports
      | none =>
          let (import_matches, same_file, same_dir, others) :=
            rank_buckets from_node import_hint nodes
          if ¬ import_matches.isEmpty then import_matches
          else if ¬ same_file.isEmpty then same_file
          else if ¬ same_dir.isEmpty then same_dir
          else others

/-- The per-reference body of `resolve_unresolved`: the Calls edge this row
is promoted to, when the ranked candidate list is a singleton. -/
def resolveRow (st : DbState) (row : URow) : Option Edge :=
  let reference := row.reference
  let from_node := get_node_by_id st reference.from_node_id
  let candidates :=
    match reference.reference_kind with
    | .calls => filter_by_call_kind (find_nodes_by_name st reference.reference_name)
    | _ => find_nodes_by_name st reference.reference_name
  let import_hint := from_node.bind
    (fun node => import_match_hint st node reference.reference_name)
  let ranked := rank_candidates st candidates from_node import_hint
    reference.reference_name
  match ranked with
  | [target] =>
      some { source := reference.from_node_id, target := target.id,
             kind := reference.reference_kind, metadata := none,
             line := some reference.line, column := some reference.column }
  | _ => none

/-- The `(resolved id, resolved edge)` pairs one `resolve_unresolved` pass
accumulates over its scan window, in scan order. -/
def resolvedPairs (st : DbState) (limit : Nat) : List (Int × Edge) :=
  (list_unresolved_refs st limit).filterMap
    (fun row => (resolveRow st row).map (fun e => (row.id, e)))

/-- `ReferenceResolver::resolve_unresolved` from `src/resolution.rs`. -/
def resolve_unresolved (st : DbState) (limit : Nat) :
    DbState × ResolveResult :=
  let unresolved := list_unresolved_refs st limit
  if unresolved.isEmpty then
    (st, { scanned := 0, resolved := 0, remaining := 0 })
  else
    let pairs := resolvedPairs st limit
    let resolved_edges := pairs.map (fun p => p.2)
    let resolved_ids := pairs.map (fun p => p.1)
    let st := if ¬ resolved_edges.isEmpty then insert_edges st resolved_edges
      else st
    let st := if ¬ resolved_ids.isEmpty then delete_unresolved_refs st resolved_ids
      else st
    (st, { scanned := unresolved.length, resolved := resolved_ids.length,
           remaining := unresolved.length - resolved_ids.length })

/-! ## The graph assembler (`src/graph.rs`) -/

/-- `TraversalDirection` from `src/types.rs`. -/
inductive TraversalDirection where
  | outgoing
  | incoming
  | both
deriving DecidableEq, Repr

/-- `TraversalOptions` from `src/types.rs`. -/
structure TraversalOptions where
  max_depth : Option Nat := none
  edge_kinds : Option (List EdgeKind) := none
  node_kinds : Option (List NodeKind) := none
  direction : Option TraversalDirection := none
  limit : Option Nat := none
  include_start : Option Bool := none
deriving Repr

/-- `Subgraph` from `src/types.rs`; `nodes` is the id-keyed map.
`expanded` is a ghost field recording, in order, each node id that passed
the visited-set insertion (the ids the loop actually expanded); it mirrors
no Rust data but lets theorems speak about expansions. -/
structure Subgraph where
  nodes : List (String × Node) := []
  edges : List Edge := []
  roots : List String := []
  expanded : List String := []
deriving Repr

/-- `fetch_edges` from `src/graph.rs`. -/
def fetch_edges (st : DbState) (node_id : String) (outgoing : Bool)
    (edge_kinds : Option (List EdgeKind)) (limit : Nat) : List Edge :=
  match edge_kinds with
  | some kinds =>
      kinds.foldl
        (fun results kind =>
          results ++
            (if outgoing then get_edges_by_source st node_id (some kind) limit
             else get_edges_by_target st node_id (some kind) limit))
        []
  | none =>
      if outgoing then get_edges_by_source st node_id none limit
      else get_edges_by_target st node_id none limit

/-- The BFS working state of `build_subgraph`. -/
structure BfsAcc where
  nodes : List (String × Node) := []
  edges : List Edge := []
  visited : List String := []
  expanded : List String := []

/-- The inner `for edge in next_edges` loop of `build_subgraph`: cap pushes
at `limit`, enqueue the far endpoint at `depth + 1` when within `max_depth`. -/
def push_edges (limit max_depth : Nat) (node_id : String) (depth : Nat) :
    List Edge → List Edge → List (String × Nat) → List Edge × List (String × Nat)
  | [], edges, queue_add => (edges, queue_add)
  | e :: rest, edges, queue_add =>
      if edges.length ≥ limit then (edges, queue_add)
      else
        let next_id := if e.source = node_id then e.target else e.source
        let next_depth := depth + 1
        let edges := edges ++ [e]
        let queue_add :=
          if next_depth ≤ max_depth then queue_add ++ [(next_id, next_depth)]
          else queue_add
        push_edges limit max_depth node_id depth rest edges queue_add

/-- The node-loading block of the BFS loop: when `include_start || depth > 0`,
load the node and, if it passes the node-kind filter, add it to the output
node map. -/
def bfs_store_node (st : DbState) (include_start : Bool)
    (node_kinds : Option (List NodeKind)) (node_id : String) (depth : Nat)
    (acc : BfsAcc) : BfsAcc :=
  if include_start ∨ depth > 0 then
    match get_node_by_id st node_id with
    | some node =>
        if (match node_kinds with
            | some kinds => kinds.contains node.kind
            | none => true) then
          { acc with nodes := alInsert acc.nodes node_id node }
        else acc
    | none => acc
  else acc

/-- `bfs_store_node` touches only the node map. -/
theorem bfs_store_node_fields (st : DbState) (include_start : Bool)
    (nk : Option (List NodeKind)) (node_id : String) (depth : Nat)
    (acc : BfsAcc) :
    (bfs_store_node st include_start nk node_id depth acc).edges = acc.edges ∧
    (bfs_store_node st include_start nk node_id depth acc).visited =
      acc.visited ∧
    (bfs_store_node st include_start nk node_id depth acc).expanded =
      acc.expanded := by
  unfold bfs_store_node
  split
  · split
    · split
      · exact ⟨rfl, rfl, rfl⟩
      · exact ⟨rfl, rfl, rfl⟩
    · exact ⟨rfl, rfl, rfl⟩
  · exact ⟨rfl, rfl, rfl⟩

/-- The `while let Some((node_id, depth)) = queue.pop_front()` loop of
`build_subgraph`.  `fuel` only bounds the recursion; each dequeue consumes
one unit, and the caller supplies enough for the loop to drain the queue
(see `build_subgraph`). -/
def bfs_loop (st : DbState) (max_depth : Nat) (include_start : Bool)
    (limit : Nat) (direction : TraversalDirection)
    (edge_kinds : Option (List EdgeKind)) (node_kinds : Option (List NodeKind)) :
    Nat → List (String × Nat) → BfsAcc → BfsAcc
  | 0, _, acc => acc
  | _ + 1, [], acc => acc
  | fuel + 1, (node_id, depth) :: queue, acc =>
      if depth > max_depth then
        bfs_loop st max_depth include_start limit direction edge_kinds
          node_kinds fuel queue acc
      else if acc.visited.contains node_id then
        bfs_loop st max_depth include_start limit direction edge_kinds
          node_kinds fuel queue acc
      else
        let acc := { acc with visited := node_id :: acc.visited,
                              expanded := acc.expanded ++ [node_id] }
        let acc := bfs_store_node st include_start node_kinds node_id depth acc
        if acc.edges.length ≥ limit then acc
        else
          let next_edges :=
            (if direction ≠ .incoming then
              fetch_edges st node_id true edge_kinds limit
             else []) ++
            (if direction ≠ .outgoing then
              fetch_edges st node_id false edge_kinds limit
             else [])
          let pushed := push_edges limit max_depth node_id depth next_edges
            acc.edges []
          bfs_loop st max_depth include_start limit direction edge_kinds
            node_kinds fuel (queue ++ pushed.2) { acc with edges := pushed.1 }

/-- `build_subgraph` from `src/graph.rs`.  The loop performs at most one
dequeue per enqueue; the queue receives the roots plus at most one entry
per pushed edge, and at most `limit` edges are ever pushed, so
`roots.length + limit + 1` units of fuel always drain the queue. -/
def build_subgraph (st : DbState) (roots : List String)
    (options : TraversalOptions) : Subgraph :=
  let max_depth := options.max_depth.getD 1
  let include_start := options.include_start.getD true
  let limit := options.limit.getD 200
  let direction := options.direction.getD .both
  let acc := bfs_loop st max_depth include_start limit direction
    options.edge_kinds options.node_kinds (roots.length + limit + 1)
    (roots.map (fun r => (r, 0))) {}
  { nodes := acc.nodes, edges := acc.edges, roots := roots,
    expanded := acc.expanded }

/-! ## The indexer driver (`index_all`, `sync`, `index_file` from
`src/extraction.rs`)

The project directory is an explicit list of scanned files in scan order
(the output of `scan_directory`); each carries the bytes `read_to_string`
would return, or `none` when the read fails (unreadable or invalid UTF-8).
`parse` is the tree-sitter oracle.  Timestamps (`now_millis`, file
metadata) are modelled as 0: no claim depends on them. -/

/-- One scanned file of the project. -/
structure ProjFile where
  path : String
  content : Option String
deriving Repr

/-- `IndexResult` from `src/extraction.rs` (error entries modelled by their
message; all errors pushed by `index_all` on a per-file failure carry
severity `Error`, and the resolver cannot fail in this model). -/
structure IndexResult where
  success : Bool
  files_indexed : Nat
  files_skipped : Nat
  nodes_created : Nat
  edges_created : Nat
  errors : List String
deriving Repr

/-- `SyncResult` from `src/extraction.rs`. -/
structure SyncResult where
  files_checked : Nat
  files_added : Nat
  files_modified : Nat
  files_removed : Nat
  nodes_updated : Nat
deriving DecidableEq, Repr

deriving instance DecidableEq for Except

/-- `detect_language` from `src/extraction.rs`. -/
def detect_language (path : String) : Language :=
  let name := fileNameOf path
  let parts := strSplitOn name "."
  let ext_raw :=
    if parts.length ≤ 1 then ""
    else if parts.headD "" = "" ∧ parts.length = 2 then ""
    else (parts.getLast?).getD ""
  let ext := to_ascii_lowercase ext_raw
  if ext = "ts" then .typeScript
  else if ext = "tsx" then .tsx
  else if ext = "js" then .javaScript
  else if ext = "jsx" then .jsx
  else if ext = "py" then .python
  else if ext = "go" then .go
  else if ext = "rs" then .rust
  else if ext = "java" then .java
  else if ext = "c" ∨ ext = "h" then .c
  else if ext = "cpp" ∨ ext = "cc" ∨ ext = "cxx" ∨ ext = "hpp" then .cpp
  else if ext = "cs" then .cSharp
  else if ext = "php" then .php
  else if ext = "rb" then .ruby
  else if ext = "swift" then .swift
  else if ext = "kt" then .kotlin
  else if ext = "liquid" then .liquid
  else if ext = "razor" ∨ ext = "cshtml" then .blazor
  else if ext = "sh" ∨ ext = "bash" then .bash
  else if ext = "dart" then .dart
  else if ext = "ex" ∨ ext = "exs" then .elixir
  else if ext = "elm" then .elm
  else if ext = "erl" ∨ ext = "hrl" then .erlang
  else if ext = "f" ∨ ext = "f90" ∨ ext = "f95" then .fortran
  else if ext = "groovy" ∨ ext = "gradle" then .groovy
  else if ext = "hs" then .haskell
  else if ext = "jl" then .julia
  else if ext = "lua" then .lua
  else if ext = "md" ∨ ext = "markdown" then .markdown
  else if ext = "m" then .matlab
  else if ext = "nix" then .nix
  else if ext = "pl" ∨ ext = "pm" then .perl
  else if ext = "ps1" then .powershell
  else if ext = "r" then .r
  else if ext = "scala" ∨ ext = "sc" then .scala
  else if ext = "toml" then .toml
  else if ext = "yml" ∨ ext = "yaml" then .yaml
  else if ext = "zig" then .zig
  else .unknown

/-- `is_language_supported` from `src/config.rs`.  Note the `matches!` arm
list includes `Unknown`. -/
def is_language_supported (language : Language) : Bool :=
  match language with
  | .typeScript | .javaScript | .tsx | .jsx | .python | .go | .rust | .java
  | .c | .cpp | .cSharp | .php | .ruby | .swift | .kotlin | .liquid
  | .blazor | .unknown => true
  | _ => false

/-- The indexing configuration fields `index_file` consults
(`max_file_size` from `CodeGraphConfig`; include/exclude sets already
applied by the scan). -/
structure Config where
  max_file_size : Nat := 1048576
deriving Repr

/-- The File symbol node `index_file` builds for a path. -/
def mk_file_node (path : String) (language : Language) : Node :=
  { id := node_id_for_symbol path "file" path 1, kind := .file,
    name := fileNameOf path, qualified_name := path, file_path := path,
    language := language, start_line := 1, end_line := 1, start_column := 0,
    end_column := 0, docstring := none, signature := none, visibility := none,
    is_exported := false, is_async := false, is_static := false,
    is_abstract := false, decorators := none, type_parameters := none,
    updated_at := 0 }

/-- The File record `index_file` upserts for a path. -/
def mk_file_record (path content : String) (language : Language)
    (node_count : Nat) : FileRecord :=
  { path := path, content_hash := hash_sha256 content, language := language,
    size := (utf8Bytes content).length, modified_at := 0, indexed_at := 0,
    node_count := node_count, errors := none }

/-- `index_file` from `src/extraction.rs`.  Fails exactly where the Rust
code propagates an error: the initial `fs::read_to_string`.  Returns
`none` for a skipped file (too large, unsupported language, or unchanged
content hash). -/
def index_file (fs : String → Bool) (parse : Language → String → Option CST)
    (cfg : Config) (st : DbState) (path : String) (content? : Option String) :
    Except String (DbState × Option (Nat × Nat)) :=
  match content? with
  | none => .error ("failed to read " ++ path)
  | some content =>
      if (utf8Bytes content).length > cfg.max_file_size then .ok (st, none)
      else
        let language := detect_language path
        if ¬ is_language_supported language then .ok (st, none)
        else
          let content_hash := hash_sha256 content
          let skip_or_clean :=
            match get_file_record st path with
            | some existing =>
                if existing.content_hash = content_hash then none
                else some (delete_file st path)
            | none => some st
          match skip_or_clean with
          | none => .ok (st, none)
          | some st =>
              let node_id := node_id_for_symbol path "file" path 1
              let file_node := mk_file_node path language
              let extracted := extract_nodes fs parse path content language 0
                node_id
              let nodes := file_node :: extracted.1
              let st := insert_nodes st nodes
              let st :=
                if ¬ extracted.2.1.isEmpty then insert_edges st extracted.2.1
                else st
              let st :=
                if ¬ extracted.2.2.isEmpty then
                  insert_unresolved_refs st extracted.2.2
                else st
              let st := upsert_file st
                (mk_file_record path content language nodes.length)
              .ok (st, some (nodes.length, extracted.2.1.length))

/-- The per-file loop of `index_all`, accumulating counters and recording
per-file errors without aborting. -/
def index_all_loop (fs : String → Bool)
    (parse : Language → String → Option CST) (cfg : Config) :
    List ProjFile → DbState → Nat → Nat → Nat → Nat → List String →
    DbState × Nat × Nat × Nat × Nat × List String
  | [], st, indexed, skipped, nodes_c, edges_c, errors =>
      (st, indexed, skipped, nodes_c, edges_c, errors)
  | file :: rest, st, indexed, skipped, nodes_c, edges_c, errors =>
      match index_file fs parse cfg st file.path file.content with
      | .ok (st, some (node_count, edge_count)) =>
          if node_count > 0 then
            index_all_loop fs parse cfg rest st (indexed + 1) skipped
              (nodes_c + node_count) (edges_c + edge_count) errors
          else
            index_all_loop fs parse cfg rest st indexed (skipped + 1) nodes_c
              edges_c errors
      | .ok (st, none) =>
          index_all_loop fs parse cfg rest st indexed (skipped + 1) nodes_c
            edges_c errors
      | .error msg =>
          index_all_loop fs parse cfg rest st indexed skipped nodes_c edges_c
            (errors ++ [msg])

/-- `index_all` from `src/extraction.rs`: scan (the given file list), clear
on `force`, index each file catching per-file errors, then one resolver
pass capped at 10000. -/
def index_all (fs : String → Bool) (parse : Language → String → Option CST)
    (cfg : Config) (project : List ProjFile) (st0 : DbState) (force : Bool) :
    DbState × IndexResult :=
  let st := if force then clear_database st0 else st0
  let looped := index_all_loop fs parse cfg project st 0 0 0 0 []
  let resolved := resolve_unresolved looped.1 10000
  let errors := looped.2.2.2.2.2
  (resolved.1,
    { success := errors.isEmpty, files_indexed := looped.2.1,
      files_skipped := looped.2.2.1, nodes_created := looped.2.2.2.1,
      edges_created := looped.2.2.2.2.1, errors := errors })

/-- The removal loop of `sync`: delete every tracked file absent from the
scan. -/
def sync_remove_loop (current_paths : List String) :
    List FileRecord → DbState → Nat → DbState × Nat
  | [], st, removed => (st, removed)
  | tracked :: rest, st, removed =>
      if ¬ current_paths.contains tracked.path then
        sync_remove_loop current_paths rest (delete_file st tracked.path)
          (removed + 1)
      else
        sync_remove_loop current_paths rest st removed

/-- The per-file loop of `sync`: read (propagating failure with `?`),
re-index when the hash differs or the file is new. -/
def sync_file_loop (fs : String → Bool)
    (parse : Language → String → Option CST) (cfg : Config)
    (tracked_files : List FileRecord) :
    List ProjFile → DbState → Nat → Nat → Nat →
    Except String (DbState × Nat × Nat × Nat)
  | [], st, added, modified, nodes_updated =>
      .ok (st, added, modified, nodes_updated)
  | file :: rest, st, added, modified, nodes_updated =>
      match file.content with
      | none => .error ("failed to read " ++ file.path)
      | some content =>
          let content_hash := hash_sha256 content
          match tracked_files.find? (fun f => f.path = file.path) with
          | some tracked =>
              if tracked.content_hash ≠ content_hash then
                match index_file fs parse cfg st file.path file.content with
                | .error msg => .error msg
                | .ok (st, some (node_count, _)) =>
                    sync_file_loop fs parse cfg tracked_files rest st added
                      (modified + 1) (nodes_updated + node_count)
                | .ok (st, none) =>
                    sync_file_loop fs parse cfg tracked_files rest st added
                      modified nodes_updated
              else
                sync_file_loop fs parse cfg tracked_files rest st added
                  modified nodes_updated
          | none =>
              match index_file fs parse cfg st file.path file.content with
              | .error msg => .error msg
              | .ok (st, some (node_count, _)) =>
                  sync_file_loop fs parse cfg tracked_files rest st
                    (added + 1) modified (nodes_updated + node_count)
              | .ok (st, none) =>
                  sync_file_loop fs parse cfg tracked_files rest st added
                    modified nodes_updated

/-- `sync` from `src/extraction.rs`.  Note the `?` operators in its
per-file loop: a failed read or a failed `index_file` aborts the whole run
(unlike `index_all`, which records the error and continues). -/
def sync (fs : String → Bool) (parse : Language → String → Option CST)
    (cfg : Config) (project : List ProjFile) (st0 : DbState) :
    Except String (DbState × SyncResult) :=
  let current_paths := project.map (fun f => f.path)
  let tracked_files := list_files st0
  let afterRemove := sync_remove_loop current_paths tracked_files st0 0
  match sync_file_loop fs parse cfg tracked_files project afterRemove.1
      0 0 0 with
  | .error msg => .error msg
  | .ok (st, added, modified, nodes_updated) =>
      let resolved := resolve_unresolved st 10000
      .ok (resolved.1,
        { files_checked := current_paths.length, files_added := added,
          files_modified := modified, files_removed := afterRemove.2,
          nodes_updated := nodes_updated })

/-! ## Claim theorems -/

/-- C1: the node identifier is a pure function of (file path, kind,
qualified name, start line) — equal inputs give equal identifiers — and for
every kind tag it equals the hex-encoded SHA-256 digest of the UTF-8 string
`<file_path>|<kind_lowercase>|<qualified_name>|<start_line>` exactly as
§4.8 words it; the last conjunct pins one concrete digest bit-exactly. -/
theorem node_id_for_symbol_matches_spec :
    (∀ (fp qn : String) (kind : NodeKind) (line : Int),
      node_id_for_symbol fp (to_ascii_lowercase (nodeKindDebug kind)) qn line =
        spec_node_identifier fp (nodeKindDebug kind) qn line) ∧
    (∀ (fp₁ fp₂ kind₁ kind₂ qn₁ qn₂ : String) (line₁ line₂ : Int),
      fp₁ = fp₂ → kind₁ = kind₂ → qn₁ = qn₂ → line₁ = line₂ →
      node_id_for_symbol fp₁ kind₁ qn₁ line₁ =
        node_id_for_symbol fp₂ kind₂ qn₂ line₂) ∧
    node_id_for_symbol "src/math.rs" "function" "src/math.rs::add" 1 =
      "c583e9e575c4f5a3faf92a3c70300825b3d5a8f816a3592c8fdddd99844fdb0b" := by
  refine ⟨fun fp qn kind line => rfl, ?_, by decide⟩
  intro fp₁ fp₂ kind₁ kind₂ qn₁ qn₂ line₁ line₂ h₁ h₂ h₃ h₄
  rw [h₁, h₂, h₃, h₄]

/-- Witness for C1: the determinism conjunct applied at concrete inputs. -/
theorem node_id_for_symbol_matches_spec_witness :
    node_id_for_symbol "a.rs" "function" "a.rs::f" 3 =
      node_id_for_symbol "a.rs" "function" "a.rs::f" 3 :=
  node_id_for_symbol_matches_spec.2.1 "a.rs" "a.rs" "function" "function"
    "a.rs::f" "a.rs::f" 3 3 rfl rfl rfl rfl

/-! ### Fixture: scenario S5, the single Rust file `fn a(){ b(); } fn b(){}` -/

/-- Helper: build a syntax node from lists. -/
def cstNode (kind text : String) (startRow startCol endRow endCol : Nat)
    (fields : List (String × CST)) (children : List CST) : CST :=
  .node kind text startRow startCol endRow endCol (fieldsOf fields)
    (listOf children)

/-- Helper: build a leaf syntax node. -/
def cstLeaf (kind text : String) (startRow startCol : Nat) : CST :=
  cstNode kind text startRow startCol startRow (startCol + text.length) [] []

/-- The tree-sitter CST of the Rust source `fn a(){ b(); }\nfn b(){}`. -/
def tree_S5 : CST :=
  cstNode "source_file" "fn a(){ b(); }\nfn b(){}" 0 0 1 8 []
    [ cstNode "function_item" "fn a(){ b(); }" 0 0 0 14
        [("name", cstLeaf "identifier" "a" 0 3),
         ("parameters", cstLeaf "parameters" "()" 0 4),
         ("body", cstLeaf "block" "{ b(); }" 0 6)]
        [ cstLeaf "identifier" "a" 0 3, cstLeaf "parameters" "()" 0 4,
          cstNode "block" "{ b(); }" 0 6 0 14 []
            [ cstNode "expression_statement" "b();" 0 8 0 12 []
                [ cstNode "call_expression" "b()" 0 8 0 11
                    [("function", cstLeaf "identifier" "b" 0 8),
                     ("arguments", cstLeaf "arguments" "()" 0 9)]
                    [cstLeaf "identifier" "b" 0 8,
                     cstLeaf "arguments" "()" 0 9] ] ] ],
      cstNode "function_item" "fn b(){}" 1 0 1 8
        [("name", cstLeaf "identifier" "b" 1 3),
         ("parameters", cstLeaf "parameters" "()" 1 4),
         ("body", cstLeaf "block" "{}" 1 6)]
        [ cstLeaf "identifier" "b" 1 3, cstLeaf "parameters" "()" 1 4,
          cstLeaf "block" "{}" 1 6 ] ]

/-- Extraction of the S5 file (file node id as `index_file` computes it). -/
def extract_S5 : List Node × List Edge × List UnresolvedReference :=
  extract_nodes (fun _ => false) (fun _ _ => some tree_S5) "main.rs"
    "fn a(){ b(); }\nfn b(){}" .rust 0
    (node_id_for_symbol "main.rs" "file" "main.rs" 1)

/-- A call expression with an empty scope stack changes nothing. -/
theorem handle_call_empty_scope (language : Language) (idx : SymbolIndex)
    (t : CST) (acc : CallsAcc) :
    handle_call_expression language idx [] t acc = acc := rfl

/-- With an empty `by_key` index the scope stack is never pushed. -/
theorem calls_scope_push_no_keys (language : Language) (idx : SymbolIndex)
    (h : idx.by_key = []) (t : CST) (scope : List String) :
    calls_scope_push language idx t scope = scope := by
  unfold calls_scope_push
  simp only [h, alLookup]
  split
  · split
    · rfl
    · rfl
  · rfl

mutual
/-- With an empty `by_key` index, pass 2 emits nothing at any node. -/
theorem walk_calls_no_keys (language : Language) (idx : SymbolIndex)
    (h : idx.by_key = []) :
    ∀ (t : CST) (acc : CallsAcc), walk_tree_calls language idx t [] acc = acc
  | .node tkind ttext srow scol erow ecol tfields tchildren, acc => by
      rw [walk_tree_calls]
      simp only [calls_scope_push_no_keys language idx h,
        handle_call_empty_scope, ite_self]
      exact walk_calls_list_no_keys language idx h tchildren acc
/-- With an empty `by_key` index, pass 2 emits nothing along any child
list. -/
theorem walk_calls_list_no_keys (language : Language) (idx : SymbolIndex)
    (h : idx.by_key = []) :
    ∀ (l : CSTList) (acc : CallsAcc),
      walk_tree_calls_list language idx l [] acc = acc
  | .nil, acc => rfl
  | .cons c rest, acc => by
      rw [walk_tree_calls_list, walk_calls_no_keys language idx h c acc]
      exact walk_calls_list_no_keys language idx h rest acc
end

/-- C2: in pass 2, a call expression under a non-empty scope stack emits a
Calls edge on a unique `by_name` hit, an unresolved reference carrying the
candidate ids on an ambiguous hit, and an unresolved reference without
candidates on a miss; and on the S5 file `fn a(){ b(); } fn b(){}` the
extraction emits exactly one Calls edge, from the `a` node to the `b`
node, and no unresolved references. -/
theorem walk_tree_calls_call_binding :
    (∀ (language : Language) (idx : SymbolIndex) (scope : List String)
        (t : CST) (acc : CallsAcc) (src callee : String),
      scope.getLast? = some src →
      call_name t language = some callee →
      ((∀ tid, alLookup idx.by_name callee = some [tid] →
          handle_call_expression language idx scope t acc =
            { acc with edges := acc.edges ++
                [{ source := src, target := tid, kind := .calls,
                   metadata := none, line := some ((t.startRow : Int) + 1),
                   column := some (t.startCol : Int) }] }) ∧
       (∀ targets, alLookup idx.by_name callee = some targets →
          2 ≤ targets.length →
          handle_call_expression language idx scope t acc =
            { acc with unresolved := acc.unresolved ++
                [{ from_node_id := src, reference_name := callee,
                   reference_kind := .calls, line := (t.startRow : Int) + 1,
                   column := (t.startCol : Int),
                   candidates := some targets }] }) ∧
       (alLookup idx.by_name callee = none →
          handle_call_expression language idx scope t acc =
            { acc with unresolved := acc.unresolved ++
                [{ from_node_id := src, reference_name := callee,
                   reference_kind := .calls, line := (t.startRow : Int) + 1,
                   column := (t.startCol : Int), candidates := none }] }))) ∧
    (extract_S5.2.1.filter (fun e => e.kind = .calls) =
      [{ source := node_id_for_symbol "main.rs" "function" "main.rs::a" 1,
         target := node_id_for_symbol "main.rs" "function" "main.rs::b" 2,
         kind := .calls, metadata := none, line := some 1,
         column := some 8 }] ∧
     extract_S5.2.2 = []) := by
  refine ⟨?_, by decide, by decide⟩
  intro language idx scope t acc src callee hlast hname
  refine ⟨?_, ?_, ?_⟩
  · intro tid hlook
    simp only [handle_call_expression, hlast, hname, hlook]
  · intro targets hlook hlen
    match targets, hlen with
    | t₁ :: t₂ :: rest, _ =>
      simp only [handle_call_expression, hlast, hname, hlook]
  · intro hlook
    simp only [handle_call_expression, hlast, hname, hlook]

/-- Witness for C2: the unique-match branch applied at a concrete index
and call site. -/
theorem walk_tree_calls_call_binding_witness :
    handle_call_expression .rust
      { by_name := [("g", ["idg"])], by_key := [], callable_ids := [] }
      ["idf"]
      (cstNode "call_expression" "g()" 0 4 0 7
        [("function", cstLeaf "identifier" "g" 0 4)] [])
      { edges := [], unresolved := [] } =
      { edges := [{ source := "idf", target := "idg", kind := .calls,
                    metadata := none, line := some 1, column := some 4 }],
        unresolved := [] } :=
  (walk_tree_calls_call_binding.1 .rust
      { by_name := [("g", ["idg"])], by_key := [], callable_ids := [] }
      ["idf"]
      (cstNode "call_expression" "g()" 0 4 0 7
        [("function", cstLeaf "identifier" "g" 0 4)] [])
      { edges := [], unresolved := [] } "idf" "g" (by decide)
      (by decide)).1 "idg" (by decide)

/-- C10: a call expression encountered while the callable scope stack is
empty is silently dropped — the handling step leaves the accumulator
unchanged — and consequently a walk whose `by_key` index is empty (no
recognized callables, so the stack can never be pushed) emits no Calls
edge and no unresolved reference anywhere in the file. -/
theorem walk_tree_calls_empty_scope_drops :
    (∀ (language : Language) (idx : SymbolIndex) (t : CST) (acc : CallsAcc),
      handle_call_expression language idx [] t acc = acc) ∧
    (∀ (language : Language) (idx : SymbolIndex) (t : CST) (acc : CallsAcc),
      idx.by_key = [] → walk_tree_calls language idx t [] acc = acc) := by
  constructor
  · intro language idx t acc
    simp only [handle_call_expression, List.getLast?]
  · intro language idx t acc h
    exact walk_calls_no_keys language idx h t acc

/-- The CST of a JavaScript file whose only statement is the top-level call
`b();` — a call site outside every recognized callable. -/
def tree_topcall : CST :=
  cstNode "program" "b();" 0 0 0 4 []
    [ cstNode "expression_statement" "b();" 0 0 0 4 []
        [ cstNode "call_expression" "b()" 0 0 0 3
            [("function", cstLeaf "identifier" "b" 0 0)]
            [cstLeaf "identifier" "b" 0 0] ] ]

/-- Witness for C10: on the file consisting only of the top-level call
`b();` (empty symbol index), pass 2 emits nothing. -/
theorem walk_tree_calls_empty_scope_drops_witness :
    ({} : SymbolIndex).by_key = [] ∧
    walk_tree_calls .javaScript {} tree_topcall []
      { edges := [], unresolved := [] } =
      { edges := [], unresolved := [] } :=
  ⟨rfl, walk_tree_calls_empty_scope_drops.2 .javaScript {} tree_topcall
    { edges := [], unresolved := [] } rfl⟩

/-- `insert_edges` with no rows is the identity. -/
theorem insert_edges_nil (st : DbState) : insert_edges st [] = st := by
  simp [insert_edges]

/-- `delete_unresolved_refs` with no ids is the identity. -/
theorem delete_unresolved_refs_nil (st : DbState) :
    delete_unresolved_refs st [] = st := by
  simp [delete_unresolved_refs, List.filter_eq_self]

/-- One resolver pass equals: append the promoted edges, then delete the
promoted row ids. -/
theorem resolve_unresolved_characterization (st : DbState) (limit : Nat) :
    (resolve_unresolved st limit).1 =
      delete_unresolved_refs
        (insert_edges st ((resolvedPairs st limit).map (fun p => p.2)))
        ((resolvedPairs st limit).map (fun p => p.1)) := by
  simp only [resolve_unresolved]
  split
  next h =>
    have hnil : resolvedPairs st limit = [] := by
      unfold resolvedPairs
      rw [List.isEmpty_iff] at h
      rw [h]
      rfl
    rw [hnil]
    simp [insert_edges_nil, delete_unresolved_refs_nil]
  next h =>
    by_cases hp : resolvedPairs st limit = []
    · simp [hp, insert_edges_nil, delete_unresolved_refs_nil]
    · have h1 : ¬ (List.map (fun p => p.2) (resolvedPairs st limit)).isEmpty
          = true := by
        simp [List.isEmpty_iff, hp]
      have h2 : ¬ (List.map (fun p => p.1) (resolvedPairs st limit)).isEmpty
          = true := by
        simp [List.isEmpty_iff, hp]
      rw [if_pos h1, if_pos h2]

/-- C5: resolver monotonicity — a `resolve_unresolved` pass preserves every
pre-existing edge (so the Calls-edge set only grows), never increases the
`unresolved_refs` row count, appends exactly the promoted edges, and
deletes a pre-pass row exactly when its id was promoted to an edge in this
pass. -/
theorem resolve_unresolved_monotone (st : DbState) (limit : Nat) :
    (∀ e, e ∈ st.edges → e ∈ (resolve_unresolved st limit).1.edges) ∧
    (resolve_unresolved st limit).1.unresolved.length ≤
      st.unresolved.length ∧
    (resolve_unresolved st limit).1.edges =
      st.edges ++ (resolvedPairs st limit).map (fun p => p.2) ∧
    (∀ row, row ∈ st.unresolved →
      (row ∉ (resolve_unresolved st limit).1.unresolved ↔
        row.id ∈ (resolvedPairs st limit).map (fun p => p.1))) := by
  rw [resolve_unresolved_characterization st limit]
  refine ⟨?_, ?_, ?_, ?_⟩
  · intro e he
    simp only [delete_unresolved_refs, insert_edges, List.mem_append]
    exact Or.inl he
  · simp only [delete_unresolved_refs, insert_edges]
    exact List.length_filter_le _ _
  · rfl
  · intro row hrow
    simp only [delete_unresolved_refs, insert_edges, List.mem_filter, hrow,
      true_and, not_and, not_not, List.elem_iff,
      decide_eq_true_eq]

/-- Helper: a Function symbol node with the fields the claims care about. -/
def mkFnNode (id name file_path : String) (line : Int) : Node :=
  { id := id, kind := .function_, name := name,
    qualified_name := file_path ++ "::" ++ name, file_path := file_path,
    language := .rust, start_line := line, end_line := line,
    start_column := 0, end_column := 0, docstring := none, signature := none,
    visibility := none, is_exported := false, is_async := false,
    is_static := false, is_abstract := false, decorators := none,
    type_parameters := none, updated_at := 0 }

/-- A pending `f -> g` Calls reference row. -/
def row_C5 : URow :=
  { id := 1,
    reference := { from_node_id := "f", reference_name := "g",
                   reference_kind := .calls, line := 1, column := 8,
                   candidates := none } }

/-- A store with functions `f` and `g` and one pending reference
`f -> g`. -/
def st_C5 : DbState :=
  { files := [],
    nodes := [mkFnNode "f" "f" "a.rs" 1, mkFnNode "g" "g" "a.rs" 2],
    edges := [], unresolved := [row_C5], next_ref_id := 2 }

/-- Witness for C5: on `st_C5` the single pending reference is deleted
exactly because it was promoted in the pass. -/
theorem resolve_unresolved_monotone_witness :
    row_C5 ∈ st_C5.unresolved ∧
    (row_C5 ∉ (resolve_unresolved st_C5 10000).1.unresolved ↔
      row_C5.id ∈ (resolvedPairs st_C5 10000).map (fun p => p.1)) :=
  ⟨by decide, (resolve_unresolved_monotone st_C5 10000).2.2.2 row_C5
    (by decide)⟩

/-- C3: `delete_file` removes exactly the symbol nodes whose `file_path`
matches, exactly the edges with a deleted node as source or target (the
schema cascade), and exactly the File record of the path; it runs as one
transaction, and a failed transaction leaves every row in place (the
caller keeps the unchanged pre-state). -/
theorem delete_file_cascades (st : DbState) (path : String) :
    (∀ n, n ∈ (delete_file st path).nodes ↔
      n ∈ st.nodes ∧ n.file_path ≠ path) ∧
    (∀ e, e ∈ (delete_file st path).edges ↔
      e ∈ st.edges ∧
        ¬ ∃ n, n ∈ st.nodes ∧ n.file_path = path ∧
          (n.id = e.source ∨ n.id = e.target)) ∧
    (∀ f, f ∈ (delete_file st path).files ↔
      f ∈ st.files ∧ f.path ≠ path) ∧
    run_transaction true (fun s => delete_file s path) st =
      .ok (delete_file st path) ∧
    run_transaction false (fun s => delete_file s path) st =
      .error "store error" := by
  refine ⟨?_, ?_, ?_, rfl, rfl⟩
  · intro n
    simp [delete_file, List.mem_filter]
  · intro e
    simp [delete_file, cascade_delete_edges, List.mem_filter,
      List.any_eq_true]
  · intro f
    simp [delete_file, List.mem_filter]

/-- The inner edge loop never grows the edge list beyond `limit`. -/
theorem push_edges_length_le (limit max_depth : Nat) (node_id : String)
    (depth : Nat) :
    ∀ (es : List Edge) (edges : List Edge) (queue_add : List (String × Nat)),
      edges.length ≤ limit →
      (push_edges limit max_depth node_id depth es edges queue_add).1.length ≤
        limit
  | [], edges, queue_add, h => h
  | e :: rest, edges, queue_add, h => by
      rw [push_edges]
      split
      · exact h
      next hlt =>
        have hlt' : edges.length < limit := Nat.lt_of_not_le
          (fun hle => hlt (ge_iff_le.mpr hle))
        exact push_edges_length_le limit max_depth node_id depth rest _ _
          (by simp; omega)

/-- BFS loop invariant: the edge list stays within `limit`, the expanded
ids stay duplicate-free, and every expanded id is in the visited set. -/
theorem bfs_loop_invariant (st : DbState) (max_depth : Nat)
    (include_start : Bool) (limit : Nat) (direction : TraversalDirection)
    (ek : Option (List EdgeKind)) (nk : Option (List NodeKind)) :
    ∀ (fuel : Nat) (queue : List (String × Nat)) (acc : BfsAcc),
      acc.edges.length ≤ limit →
      acc.expanded.Nodup →
      (∀ x, x ∈ acc.expanded → x ∈ acc.visited) →
      ((bfs_loop st max_depth include_start limit direction ek nk fuel queue
          acc).edges.length ≤ limit ∧
       (bfs_loop st max_depth include_start limit direction ek nk fuel queue
          acc).expanded.Nodup ∧
       (∀ x, x ∈ (bfs_loop st max_depth include_start limit direction ek nk
          fuel queue acc).expanded →
         x ∈ (bfs_loop st max_depth include_start limit direction ek nk fuel
          queue acc).visited))
  | 0, queue, acc, h1, h2, h3 => ⟨h1, h2, h3⟩
  | fuel + 1, [], acc, h1, h2, h3 => ⟨h1, h2, h3⟩
  | fuel + 1, (node_id, depth) :: queue, acc, h1, h2, h3 => by
      rw [bfs_loop]
      dsimp only
      split
      · exact bfs_loop_invariant st max_depth include_start limit direction
          ek nk fuel queue acc h1 h2 h3
      next hdep =>
        split
        · exact bfs_loop_invariant st max_depth include_start limit direction
            ek nk fuel queue acc h1 h2 h3
        next hvis =>
          have hnotvis : node_id ∉ acc.visited := by
            simpa [List.elem_iff] using hvis
          have hnotexp : node_id ∉ acc.expanded := fun hx => hnotvis (h3 _ hx)
          have hstep := bfs_store_node_fields st include_start nk node_id
            depth ⟨acc.nodes, acc.edges, node_id :: acc.visited,
              acc.expanded ++ [node_id]⟩
          set acc₂ := bfs_store_node st include_start nk node_id depth
            ⟨acc.nodes, acc.edges, node_id :: acc.visited,
              acc.expanded ++ [node_id]⟩ with hacc2
          have hed : acc₂.edges = acc.edges := hstep.1
          have hvi : acc₂.visited = node_id :: acc.visited := hstep.2.1
          have hex : acc₂.expanded = acc.expanded ++ [node_id] := hstep.2.2
          have hnodup : acc₂.expanded.Nodup := by
            rw [hex]
            simp [List.nodup_append, h2, hnotexp]
          have hsub : ∀ x, x ∈ acc₂.expanded → x ∈ acc₂.visited := by
            intro x hx
            rw [hex] at hx
            rw [hvi]
            rcases List.mem_append.mp hx with hx | hx
            · exact List.mem_cons_of_mem _ (h3 _ hx)
            · simp only [List.mem_singleton] at hx
              simp [hx]
          have hlen : acc₂.edges.length ≤ limit := by rw [hed]; exact h1
          split
          · exact ⟨hlen, hnodup, hsub⟩
          next hlim =>
            refine bfs_loop_invariant st max_depth include_start limit
              direction ek nk fuel _ _ ?_ ?_ ?_
            · exact push_edges_length_le limit max_depth node_id depth _ _ _
                hlen
            · exact hnodup
            · exact hsub

/-- C9: `build_subgraph` returns at most `limit` edges (default 200 when
the option is absent), and no node id is expanded more than once — the
ghost `expanded` trace of visited-set insertions is duplicate-free. -/
theorem build_subgraph_bounded (st : DbState) (roots : List String)
    (options : TraversalOptions) :
    (build_subgraph st roots options).edges.length ≤
      options.limit.getD 200 ∧
    (build_subgraph st roots options).expanded.Nodup := by
  have h := bfs_loop_invariant st (options.max_depth.getD 1)
    (options.include_start.getD true) (options.limit.getD 200)
    (options.direction.getD .both) options.edge_kinds options.node_kinds
    (roots.length + options.limit.getD 200 + 1)
    (roots.map (fun r => (r, 0))) {} (by simp) (by simp)
    (by intro x hx; simp at hx)
  exact ⟨h.1, h.2.1⟩

/-- C7 (amended): a scanned file whose detected language fails
`is_language_supported` is skipped entirely — state unchanged, no File
record, no nodes or edges, no error.  A file with an unknown extension,
however, detects as `Language::Unknown`, which `is_language_supported`
accepts: it is not skipped, and (no grammar existing) indexing it creates
exactly one File record and one File symbol node — nothing else — and
reports no error. -/
theorem index_file_unsupported_language_skip :
    (∀ (fs : String → Bool) (parse : Language → String → Option CST)
        (cfg : Config) (st : DbState) (path content : String),
      is_language_supported (detect_language path) = false →
      index_file fs parse cfg st path (some content) = .ok (st, none)) ∧
    (∀ (fs : String → Bool) (parse : Language → String → Option CST)
        (cfg : Config) (st : DbState) (path content : String),
      detect_language path = .unknown →
      (utf8Bytes content).length ≤ cfg.max_file_size →
      get_file_record st path = none →
      index_file fs parse cfg st path (some content) =
        .ok (upsert_file (insert_nodes st [mk_file_node path .unknown])
              (mk_file_record path content .unknown 1), some (1, 0))) := by
  constructor
  · intro fs parse cfg st path content h
    simp only [index_file]
    split
    · rfl
    · simp [h]
  · intro fs parse cfg st path content hdet hsize hrec
    simp only [index_file]
    rw [if_neg (by omega)]
    simp only [hdet, hrec]
    simp [extract_nodes, parser_available, is_language_supported]

/-- Counterexample for C7: indexing the project containing only the
unknown-extension file `data.xyz` does create a File record (and counts
the file as indexed), with no error — the claim promised no File record. -/
theorem index_all_unknown_extension_creates_record :
    detect_language "data.xyz" = .unknown ∧
    ((index_all (fun _ => false) (fun _ _ => none) {}
        [⟨"data.xyz", some "x"⟩] {} false).1.files.map (fun f => f.path) =
      ["data.xyz"]) ∧
    (index_all (fun _ => false) (fun _ _ => none) {}
        [⟨"data.xyz", some "x"⟩] {} false).2.errors = [] ∧
    (index_all (fun _ => false) (fun _ _ => none) {}
        [⟨"data.xyz", some "x"⟩] {} false).2.files_indexed = 1 := by
  refine ⟨by decide, by decide, by decide, by decide⟩

/-- Witness for C7: both branches of the amended claim at concrete files —
`README.md` (Markdown, unsupported, skipped) and `data.xyz` (Unknown,
record plus File node created). -/
theorem index_file_unsupported_language_skip_witness :
    (is_language_supported (detect_language "README.md") = false ∧
      index_file (fun _ => false) (fun _ _ => none) {} {} "README.md"
        (some "hi") = .ok ({}, none)) ∧
    (detect_language "data.xyz" = .unknown ∧
      index_file (fun _ => false) (fun _ _ => none) {} {} "data.xyz"
        (some "x") =
        .ok (upsert_file (insert_nodes {} [mk_file_node "data.xyz" .unknown])
              (mk_file_record "data.xyz" "x" .unknown 1), some (1, 0))) :=
  ⟨⟨by decide,
    index_file_unsupported_language_skip.1 (fun _ => false) (fun _ _ => none)
      {} {} "README.md" "hi" (by decide)⟩,
   ⟨by decide,
    index_file_unsupported_language_skip.2 (fun _ => false) (fun _ _ => none)
      {} {} "data.xyz" "x" (by decide) (by decide) (by decide)⟩⟩

/-- C4: at the failing input — a sync over a project whose first file
cannot be read — `sync` aborts the whole run with the read error and
returns no counters, while `index_all` on the same project records the
error, continues, and still indexes the second file.  The spec (§4.6, §7)
says per-file errors never abort the loop; `sync` contradicts it. -/
theorem sync_aborts_on_unreadable_file :
    sync (fun _ => false) (fun _ _ => none) {}
      [⟨"a.rs", none⟩, ⟨"b.rs", some "fn g() {}"⟩] {} =
      .error "failed to read a.rs" ∧
    (index_all (fun _ => false) (fun _ _ => none) {}
        [⟨"a.rs", none⟩, ⟨"b.rs", some "fn g() {}"⟩] {} false).2.errors =
      ["failed to read a.rs"] ∧
    (index_all (fun _ => false) (fun _ _ => none) {}
        [⟨"a.rs", none⟩, ⟨"b.rs", some "fn g() {}"⟩] {} false).2.files_indexed
      = 1 ∧
    ((index_all (fun _ => false) (fun _ _ => none) {}
        [⟨"a.rs", none⟩, ⟨"b.rs", some "fn g() {}"⟩] {}
        false).1.files.map (fun f => f.path)) = ["b.rs"] := by
  refine ⟨by decide, by decide, by decide, by decide⟩

/-! ### Callable-endpoint analysis for C8 -/

/-- `id` is the id of some Function or Method node in `nodes`. -/
def CallableId (nodes : List Node) (id : String) : Prop :=
  ∃ n, n ∈ nodes ∧ n.id = id ∧ (n.kind = .function_ ∨ n.kind = .method)

instance (nodes : List Node) (id : String) : Decidable (CallableId nodes id) :=
  List.decidableBEx _ nodes

/-- `id` is the id of some Export node in `nodes`. -/
def ExportNodeId (nodes : List Node) (id : String) : Prop :=
  ∃ n, n ∈ nodes ∧ n.id = id ∧ n.kind = .export_

instance (nodes : List Node) (id : String) : Decidable (ExportNodeId nodes id) :=
  List.decidableBEx _ nodes

/-- The symbol index refers only to callable node ids. -/
def IndexSound (idx : SymbolIndex) (nodes : List Node) : Prop :=
  (∀ k ids, alLookup idx.by_name k = some ids →
    ∀ id, id ∈ ids → CallableId nodes id) ∧
  (∀ k id, alLookup idx.by_key k = some id → CallableId nodes id)

theorem CallableId.of_append {nodes : List Node} {id : String}
    (h : CallableId nodes id) (more : List Node) :
    CallableId (nodes ++ more) id := by
  obtain ⟨n, hn, hid, hk⟩ := h
  exact ⟨n, List.mem_append_left _ hn, hid, hk⟩

theorem IndexSound.mono_index {idx : SymbolIndex} {nodes : List Node}
    (h : IndexSound idx nodes) (more : List Node) :
    IndexSound idx (nodes ++ more) := by
  refine ⟨fun k ids hl id hid => ?_, fun k id hl => ?_⟩
  · exact (h.1 k ids hl id hid).of_append more
  · exact (h.2 k id hl).of_append more

theorem alLookup_alInsert {α : Type} (l : List (String × α)) (k : String)
    (v : α) (k' : String) :
    alLookup (alInsert l k v) k' =
      if k = k' then some v else alLookup l k' := by
  induction l with
  | nil => simp [alInsert, alLookup]
  | cons p rest ih =>
      rcases p with ⟨pk, pv⟩
      by_cases hp : pk = k
      · subst hp
        by_cases h : pk = k'
        · subst h
          simp [alInsert, alLookup]
        · simp [alInsert, alLookup, h]
      · by_cases h' : pk = k'
        · subst h'
          have hk : ¬ k = pk := fun hh => hp hh.symm
          simp [alInsert, alLookup, hp, hk]
        · simp [alInsert, alLookup, hp, h', ih]

theorem alLookup_alPush (l : List (String × List String)) (k v k' : String) :
    alLookup (alPush l k v) k' =
      if k = k' then some ((alLookup l k).getD [] ++ [v])
      else alLookup l k' := by
  induction l with
  | nil => simp [alPush, alLookup]
  | cons p rest ih =>
      rcases p with ⟨pk, pv⟩
      by_cases hp : pk = k
      · subst hp
        by_cases h : pk = k'
        · subst h
          simp [alPush, alLookup]
        · simp [alPush, alLookup, h]
      · by_cases h' : pk = k'
        · subst h'
          have hk : ¬ k = pk := fun hh => hp hh.symm
          simp [alPush, alLookup, hp, hk]
        · simp [alPush, alLookup, hp, h', ih]

theorem is_callable_kind_iff (kind : NodeKind) :
    is_callable_kind kind = true ↔ (kind = .function_ ∨ kind = .method) := by
  cases kind <;> simp [is_callable_kind]

/-- A structural edge never has kind Calls. -/
theorem mkStructuralEdge_kind (kind : EdgeKind) (s t : String) (r c : Nat) :
    (mkStructuralEdge kind s t r c).kind = kind := rfl

/-- How one pass-1 step may change the accumulator: nodes are only
appended, index soundness is preserved, and no Calls edge is added. -/
def CollectExtends (acc res : CollectAcc) : Prop :=
  (∃ ns, res.nodes = acc.nodes ++ ns) ∧
  (IndexSound acc.index acc.nodes → IndexSound res.index res.nodes) ∧
  (∀ e, e ∈ res.edges → e ∈ acc.edges ∨ e.kind ≠ .calls)

theorem CollectExtends.rfl (acc : CollectAcc) : CollectExtends acc acc :=
  ⟨⟨[], (List.append_nil _).symm⟩, id, fun _ he => Or.inl he⟩

theorem CollectExtends.trans {a b c : CollectAcc} (h1 : CollectExtends a b)
    (h2 : CollectExtends b c) : CollectExtends a c := by
  refine ⟨?_, fun hs => h2.2.1 (h1.2.1 hs), ?_⟩
  · obtain ⟨ns1, e1⟩ := h1.1
    obtain ⟨ns2, e2⟩ := h2.1
    exact ⟨ns1 ++ ns2, by rw [e2, e1, List.append_assoc]⟩
  · intro e he
    rcases h2.2.2 e he with he' | hk
    · exact h1.2.2 e he'
    · exact Or.inr hk

/-- A step that keeps the index and appends nodes and non-Calls edges
extends the accumulator. -/
theorem CollectExtends.of_parts {acc res : CollectAcc}
    (hidx : res.index = acc.index)
    (hn : ∃ ns, res.nodes = acc.nodes ++ ns)
    (he : ∀ e, e ∈ res.edges → e ∈ acc.edges ∨ e.kind ≠ .calls) :
    CollectExtends acc res := by
  refine ⟨hn, ?_, he⟩
  intro hs
  obtain ⟨ns, hns⟩ := hn
  rw [hidx, hns]
  exact hs.mono_index ns

/-- Extending the index with a callable id keeps it sound. -/
theorem IndexSound.extend {idx : SymbolIndex} {nodes : List Node}
    (name id key : String) (more : List Node) (h : IndexSound idx nodes)
    (hc : CallableId (nodes ++ more) id) :
    IndexSound
      { by_key := alInsert idx.by_key key id,
        by_name := alPush idx.by_name name id,
        callable_ids := idx.callable_ids ++ [id] }
      (nodes ++ more) := by
  constructor
  · intro k ids hl id₀ hid
    rw [alLookup_alPush] at hl
    by_cases hk : name = k
    · rw [if_pos hk] at hl
      cases hl
      rcases List.mem_append.mp hid with hid | hid
      · cases hgl : alLookup idx.by_name name with
        | none =>
            rw [hgl] at hid
            simp at hid
        | some l =>
            rw [hgl] at hid
            simp only [Option.getD_some] at hid
            exact (h.1 _ _ hgl id₀ hid).of_append more
      · simp only [List.mem_singleton] at hid
        rw [hid]
        exact hc
    · rw [if_neg hk] at hl
      exact (h.1 k ids hl id₀ hid).of_append more
  · intro k id₀ hl
    rw [alLookup_alInsert] at hl
    by_cases hk : key = k
    · rw [if_pos hk] at hl
      cases hl
      exact hc
    · rw [if_neg hk] at hl
      exact (h.2 k id₀ hl).of_append more

/-- A fold whose step extends with index unchanged yields an extension. -/
theorem collect_fold_extends {α : Type} (f : CollectAcc → α → CollectAcc)
    (hf : ∀ acc x, (f acc x).index = acc.index ∧
      (∃ ns, (f acc x).nodes = acc.nodes ++ ns) ∧
      (∀ e, e ∈ (f acc x).edges → e ∈ acc.edges ∨ e.kind ≠ .calls)) :
    ∀ (l : List α) (acc : CollectAcc), CollectExtends acc (l.foldl f acc)
  | [], acc => CollectExtends.rfl acc
  | x :: rest, acc => by
      have h1 := hf acc x
      have hstep : CollectExtends acc (f acc x) :=
        CollectExtends.of_parts h1.1 h1.2.1 h1.2.2
      have h2 := collect_fold_extends f hf rest (f acc x)
      simpa only [List.foldl_cons] using hstep.trans h2

theorem add_import_nodes_extends (language : Language)
    (file_path parent_id : String) (now_ms : Int) (t : CST)
    (acc : CollectAcc) :
    CollectExtends acc
      (add_import_nodes language file_path parent_id now_ms t acc) := by
  unfold add_import_nodes
  dsimp only
  split
  · exact CollectExtends.rfl acc
  · refine collect_fold_extends _ ?_ _ acc
    intro acc x
    refine ⟨rfl, ⟨_, rfl⟩, ?_⟩
    intro e he
    rcases List.mem_append.mp he with h | h
    · exact Or.inl h
    · right
      simp only [List.mem_cons, List.not_mem_nil, or_false] at h
      rcases h with h | h <;> subst h <;> simp [mkStructuralEdge]

theorem add_module_node_extends (fs : String → Bool) (language : Language)
    (file_path parent_id : String) (now_ms : Int) (t : CST)
    (acc : CollectAcc) :
    CollectExtends acc
      (add_module_node fs language file_path parent_id now_ms t acc) := by
  unfold add_module_node
  dsimp only
  split
  · exact CollectExtends.rfl acc
  · refine CollectExtends.of_parts rfl ⟨_, rfl⟩ ?_
    intro e he
    rcases List.mem_append.mp he with h | h
    · exact Or.inl h
    · right
      simp only [List.mem_singleton] at h
      subst h
      simp [mkStructuralEdge]

theorem add_export_nodes_extends (language : Language)
    (file_path parent_id : String) (now_ms : Int) (t : CST)
    (acc : CollectAcc) :
    CollectExtends acc
      (add_export_nodes language file_path parent_id now_ms t acc) := by
  unfold add_export_nodes
  dsimp only
  split
  · exact CollectExtends.rfl acc
  · refine collect_fold_extends _ ?_ _ acc
    intro acc x
    refine ⟨rfl, ⟨_, rfl⟩, ?_⟩
    intro e he
    rcases List.mem_append.mp he with h | h
    · exact Or.inl h
    · right
      simp only [List.mem_cons, List.not_mem_nil, or_false] at h
      rcases h with h | h <;> subst h <;> simp [mkStructuralEdge]

mutual
/-- Pass 1 only appends nodes, keeps the index sound, and never emits a
Calls edge. -/
theorem walk_collect_extends (fs : String → Bool) (file_path : String)
    (language : Language) (now_ms : Int) :
    ∀ (t : CST) (stack : List String) (parent_id : Option String)
      (acc : CollectAcc),
      CollectExtends acc
        (walk_tree_collect fs file_path language now_ms t stack parent_id acc)
  | .node tkind ttext srow scol erow ecol tfields tchildren, stack,
      parent_id, acc => by
      rw [walk_tree_collect]
      dsimp only
      split
      · exact add_import_nodes_extends language file_path (parent_id.getD "")
          now_ms _ acc
      · split
        · exact add_module_node_extends fs language file_path
            (parent_id.getD "") now_ms _ acc
        · have hexp : CollectExtends acc
              (if (map_node_kind tkind language).1 = some NodeKind.export_ ∧
                  parent_id.isSome = true then
                add_export_nodes language file_path (parent_id.getD "") now_ms
                  (CST.node tkind ttext srow scol erow ecol tfields tchildren)
                  acc
              else acc) := by
            split
            · exact add_export_nodes_extends language file_path
                (parent_id.getD "") now_ms _ acc
            · exact CollectExtends.rfl acc
          split
          next kind name heq =>
            refine hexp.trans (CollectExtends.trans ?_
              (walk_collect_list_extends fs file_path language now_ms
                tchildren _ _ _))
            refine ⟨⟨_, rfl⟩, ?_, ?_⟩
            · intro hs
              dsimp only
              split
              next hcall =>
                exact IndexSound.extend _ _ _ _ hs
                  ⟨_, List.mem_append_right _ (List.mem_singleton_self _),
                    rfl, (is_callable_kind_iff _).mp hcall⟩
              next => exact hs.mono_index _
            · intro e he
              dsimp only at he
              split at he
              next =>
                simp only [List.append_assoc, List.mem_append] at he
                rcases he with he | he | he | he
                · exact Or.inl he
                · right
                  simp only [List.mem_singleton] at he
                  subst he
                  simp [mkStructuralEdge]
                · right
                  revert he
                  split <;> intro he <;>
                    simp only [List.mem_singleton, List.not_mem_nil] at he
                  subst he
                  simp [mkStructuralEdge]
                · right
                  revert he
                  split <;> intro he <;>
                    simp only [List.mem_singleton, List.not_mem_nil] at he
                  subst he
                  simp [mkStructuralEdge]
              next => exact Or.inl he
          next =>
            exact hexp.trans (walk_collect_list_extends fs file_path language
              now_ms tchildren _ _ _)
/-- Child-list version of `walk_collect_extends`. -/
theorem walk_collect_list_extends (fs : String → Bool) (file_path : String)
    (language : Language) (now_ms : Int) :
    ∀ (l : CSTList) (stack : List String) (parent_id : Option String)
      (acc : CollectAcc),
      CollectExtends acc
        (walk_tree_collect_list fs file_path language now_ms l stack parent_id
          acc)
  | .nil, _, _, acc => CollectExtends.rfl acc
  | .cons c rest, stack, parent_id, acc => by
      rw [walk_tree_collect_list]
      exact (walk_collect_extends fs file_path language now_ms c stack
        parent_id acc).trans
        (walk_collect_list_extends fs file_path language now_ms rest stack
          parent_id _)
end

/-- The scope push only adds callable ids (they come from `by_key`). -/
theorem calls_scope_push_sound (language : Language) (idx : SymbolIndex)
    (nodes : List Node) (h : IndexSound idx nodes) (t : CST)
    (scope : List String) (hs : ∀ id, id ∈ scope → CallableId nodes id) :
    ∀ id, id ∈ calls_scope_push language idx t scope →
      CallableId nodes id := by
  intro id hid
  unfold calls_scope_push at hid
  dsimp only at hid
  split at hid
  next kind name heq =>
    split at hid
    next hcall =>
      split at hid
      next found hlook =>
        rcases List.mem_append.mp hid with h0 | h0
        · exact hs _ h0
        · simp only [List.mem_singleton] at h0
          subst h0
          exact h.2 _ _ hlook
      next => exact hs _ hid
    next => exact hs _ hid
  next => exact hs _ hid

/-- Every edge the call handler adds is a Calls edge between callable
ids. -/
theorem handle_call_sound (language : Language) (idx : SymbolIndex)
    (nodes : List Node) (h : IndexSound idx nodes) (scope : List String)
    (t : CST) (acc : CallsAcc)
    (hs : ∀ id, id ∈ scope → CallableId nodes id) :
    ∀ e, e ∈ (handle_call_expression language idx scope t acc).edges →
      e ∈ acc.edges ∨
        (e.kind = .calls ∧ CallableId nodes e.source ∧
          CallableId nodes e.target) := by
  intro e he
  unfold handle_call_expression at he
  split at he
  next => exact Or.inl he
  next src hlast =>
    split at he
    next => exact Or.inl he
    next callee hcn =>
      split at he
      next target hlook =>
        dsimp only at he
        rcases List.mem_append.mp he with h0 | h0
        · exact Or.inl h0
        · right
          simp only [List.mem_singleton] at h0
          subst h0
          refine ⟨rfl, hs _ (List.mem_of_mem_getLast? hlast), ?_⟩
          exact h.1 _ _ hlook target (List.mem_singleton_self target)
      next targets hlook =>
        exact Or.inl he
      next hlook =>
        exact Or.inl he

mutual
/-- Pass 2 adds only Calls edges between callable ids, given a sound index
and a callable scope stack. -/
theorem walk_calls_sound (language : Language) (idx : SymbolIndex)
    (nodes : List Node) (h : IndexSound idx nodes) :
    ∀ (t : CST) (scope : List String) (acc : CallsAcc),
      (∀ id, id ∈ scope → CallableId nodes id) →
      ∀ e, e ∈ (walk_tree_calls language idx t scope acc).edges →
        e ∈ acc.edges ∨
          (e.kind = .calls ∧ CallableId nodes e.source ∧
            CallableId nodes e.target)
  | .node tkind ttext srow scol erow ecol tfields tchildren, scope, acc,
      hs => by
      rw [walk_tree_calls]
      intro e he
      have hs' := calls_scope_push_sound language idx nodes h
        (CST.node tkind ttext srow scol erow ecol tfields tchildren) scope hs
      have hlist := walk_calls_list_sound language idx nodes h tchildren
        (calls_scope_push language idx
          (CST.node tkind ttext srow scol erow ecol tfields tchildren) scope)
        _ hs' e he
      rcases hlist with he' | hgood
      · revert he'
        split
        · intro he'
          exact handle_call_sound language idx nodes h _ _ acc hs' e he'
        · intro he'
          exact Or.inl he'
      · exact Or.inr hgood
/-- Child-list version of `walk_calls_sound`. -/
theorem walk_calls_list_sound (language : Language) (idx : SymbolIndex)
    (nodes : List Node) (h : IndexSound idx nodes) :
    ∀ (l : CSTList) (scope : List String) (acc : CallsAcc),
      (∀ id, id ∈ scope → CallableId nodes id) →
      ∀ e, e ∈ (walk_tree_calls_list language idx l scope acc).edges →
        e ∈ acc.edges ∨
          (e.kind = .calls ∧ CallableId nodes e.source ∧
            CallableId nodes e.target)
  | .nil, scope, acc, _, e, he => Or.inl he
  | .cons c rest, scope, acc, hs, e, he => by
      rw [walk_tree_calls_list] at he
      rcases walk_calls_list_sound language idx nodes h rest scope _ hs e he
        with he' | hg
      · exact walk_calls_sound language idx nodes h c scope acc hs e he'
      · exact Or.inr hg
end

theorem filter_by_call_kind_go_mem (n : Node) :
    ∀ (l : List Node) (seen : List String),
      n ∈ filter_by_call_kind.go l seen →
      n ∈ l ∧ (n.kind = .function_ ∨ n.kind = .method)
  | [], _, h => by simp [filter_by_call_kind.go] at h
  | m :: rest, seen, h => by
      rw [filter_by_call_kind.go] at h
      split at h
      next hc =>
        rcases List.mem_cons.mp h with h0 | h0
        · subst h0
          exact ⟨List.mem_cons_self _ _, hc.1⟩
        · have := filter_by_call_kind_go_mem n rest _ h0
          exact ⟨List.mem_cons_of_mem _ this.1, this.2⟩
      next =>
        have := filter_by_call_kind_go_mem n rest _ h
        exact ⟨List.mem_cons_of_mem _ this.1, this.2⟩

/-- Candidates surviving `filter_by_call_kind` are callable members of the
input. -/
theorem filter_by_call_kind_mem {n : Node} {l : List Node}
    (h : n ∈ filter_by_call_kind l) :
    n ∈ l ∧ (n.kind = .function_ ∨ n.kind = .method) :=
  filter_by_call_kind_go_mem n l [] h

/-- Every bucket of `rank_buckets` draws from the input list. -/
theorem rank_buckets_subset (from_node : Node) (hint : Option ImportHint) :
    ∀ (l : List Node) (n : Node),
      (n ∈ (rank_buckets from_node hint l).1 ∨
       n ∈ (rank_buckets from_node hint l).2.1 ∨
       n ∈ (rank_buckets from_node hint l).2.2.1 ∨
       n ∈ (rank_buckets from_node hint l).2.2.2) → n ∈ l
  | [], n, h => by simp [rank_buckets] at h
  | m :: rest, n, h => by
      have ih := rank_buckets_subset from_node hint rest n
      rcases hrb : rank_buckets from_node hint rest with ⟨im, sf, sd, ot⟩
      rw [rank_buckets.eq_2] at h
      rw [hrb] at ih
      simp only [hrb] at h
      have hmem : n ∈ im ∨ n ∈ sf ∨ n ∈ sd ∨ n ∈ ot → n ∈ m :: rest :=
        fun hx => List.mem_cons_of_mem _ (ih hx)
      by_cases hA : hint_matches hint m.file_path = true
      · simp only [hA, if_true] at h
        rcases h with h | h | h | h
        · rcases List.mem_cons.mp h with h0 | h0
          · exact h0 ▸ List.mem_cons_self m rest
          · exact hmem (Or.inl h0)
        · exact hmem (Or.inr (Or.inl h))
        · exact hmem (Or.inr (Or.inr (Or.inl h)))
        · exact hmem (Or.inr (Or.inr (Or.inr h)))
      · simp only [hA, if_false] at h
        by_cases hB : m.file_path = from_node.file_path
        · simp only [hB, if_true, if_pos] at h
          rcases h with h | h | h | h
          · exact hmem (Or.inl h)
          · rcases List.mem_cons.mp h with h0 | h0
            · exact h0 ▸ List.mem_cons_self m rest
            · exact hmem (Or.inr (Or.inl h0))
          · exact hmem (Or.inr (Or.inr (Or.inl h)))
          · exact hmem (Or.inr (Or.inr (Or.inr h)))
        · simp only [hB, if_false] at h
          by_cases hC : (parentDir from_node.file_path).isSome = true ∧
              parentDir m.file_path = parentDir from_node.file_path
          · rw [if_pos hC] at h
            rcases h with h | h | h | h
            · exact hmem (Or.inl h)
            · exact hmem (Or.inr (Or.inl h))
            · rcases List.mem_cons.mp h with h0 | h0
              · exact h0 ▸ List.mem_cons_self m rest
              · exact hmem (Or.inr (Or.inr (Or.inl h0)))
            · exact hmem (Or.inr (Or.inr (Or.inr h)))
          · rw [if_neg hC] at h
            rcases h with h | h | h | h
            · exact hmem (Or.inl h)
            · exact hmem (Or.inr (Or.inl h))
            · exact hmem (Or.inr (Or.inr (Or.inl h)))
            · rcases List.mem_cons.mp h with h0 | h0
              · exact h0 ▸ List.mem_cons_self m rest
              · exact hmem (Or.inr (Or.inr (Or.inr h0)))

/-- Export candidates are Export nodes of the store. -/
theorem export_candidates_mem {st : DbState} {mp en : String}
    {l : List Node} (h : export_candidates st mp en = some l) :
    ∀ n, n ∈ l → n ∈ st.nodes ∧ n.kind = .export_ := by
  intro n hn
  simp only [export_candidates] at h
  split at h
  · exact absurd h (by simp)
  · split at h
    · exact absurd h (by simp)
    · cases h
      have h1 := List.mem_filter.mp hn
      have h2 := List.mem_filter.mp h1.1
      refine ⟨h2.1, ?_⟩
      have := h2.2
      simp only [decide_eq_true_eq] at this
      exact this.1

/-- A ranked candidate is either one of the input candidates or an Export
node pulled from the export table. -/
theorem rank_candidates_cases (st : DbState) (cands : List Node)
    (from_node : Option Node) (hint : Option ImportHint)
    (symbol_name : String) (n : Node)
    (h : n ∈ rank_candidates st cands from_node hint symbol_name) :
    n ∈ cands ∨ (n ∈ st.nodes ∧ n.kind = .export_) := by
  unfold rank_candidates at h
  cases from_node with
  | none => exact Or.inl h
  | some fn =>
      dsimp only at h
      have hbucket : ∀ (hint' : Option ImportHint),
          n ∈ (match rank_buckets fn hint' cands with
            | (import_matches, same_file, same_dir, others) =>
              if ¬ import_matches.isEmpty then import_matches
              else if ¬ same_file.isEmpty then same_file
              else if ¬ same_dir.isEmpty then same_dir
              else others) → n ∈ cands := by
        intro hint' hm
        rcases hrb : rank_buckets fn hint' cands with ⟨im, sf, sd, ot⟩
        rw [hrb] at hm
        dsimp only at hm
        refine rank_buckets_subset fn hint' cands n ?_
        rw [hrb]
        split at hm
        · exact Or.inl hm
        · split at hm
          · exact Or.inr (Or.inl hm)
          · split at hm
            · exact Or.inr (Or.inr (Or.inl hm))
            · exact Or.inr (Or.inr (Or.inr hm))
      cases hint with
      | none =>
          dsimp only at h
          exact Or.inl (hbucket none h)
      | some hint =>
          dsimp only at h
          cases hec : export_candidates st hint.module_path
              (hint.export_name.getD symbol_name) with
          | some exports =>
              rw [hec] at h
              exact Or.inr (export_candidates_mem hec n h)
          | none =>
              rw [hec] at h
              exact Or.inl (hbucket (some hint) h)

/-- C8 (amended): every Calls edge emitted by extraction pass 2 has both
endpoints callable (Function or Method nodes of the same extraction), and
every Calls edge the resolver promotes keeps the reference source id and
targets either a callable node or — through the export-table ranking path —
an Export node. -/
theorem calls_edges_callable_amended :
    (∀ (fs : String → Bool) (parse : Language → String → Option CST)
        (file_path source : String) (language : Language) (now_ms : Int)
        (root_id : String) (e : Edge),
      e ∈ (extract_nodes fs parse file_path source language now_ms
        root_id).2.1 →
      e.kind = .calls →
      CallableId (extract_nodes fs parse file_path source language now_ms
        root_id).1 e.source ∧
      CallableId (extract_nodes fs parse file_path source language now_ms
        root_id).1 e.target) ∧
    (∀ (st : DbState) (row : URow) (e : Edge),
      row.reference.reference_kind = .calls →
      resolveRow st row = some e →
      e.source = row.reference.from_node_id ∧
      (CallableId st.nodes e.target ∨ ExportNodeId st.nodes e.target)) := by
  constructor
  · intro fs parse file_path source language now_ms root_id e he hkind
    by_cases hp : parser_available language = true
    case neg =>
      have hx : extract_nodes fs parse file_path source language now_ms
          root_id = ([], [], []) := by
        unfold extract_nodes
        rw [if_pos hp]
      rw [hx] at he
      simp at he
    case pos =>
      cases hparse : parse language source with
      | none =>
          have hx : extract_nodes fs parse file_path source language now_ms
              root_id = ([], [], []) := by
            unfold extract_nodes
            rw [if_neg (by simpa using hp), hparse]
          rw [hx] at he
          simp at he
      | some tree =>
          have hx : extract_nodes fs parse file_path source language now_ms
              root_id =
              ((walk_tree_collect fs file_path language now_ms tree []
                  (some root_id) {}).nodes,
               (walk_tree_calls language
                  (walk_tree_collect fs file_path language now_ms tree []
                    (some root_id) {}).index tree []
                  { edges := (walk_tree_collect fs file_path language now_ms
                      tree [] (some root_id) {}).edges,
                    unresolved := [] }).edges,
               (walk_tree_calls language
                  (walk_tree_collect fs file_path language now_ms tree []
                    (some root_id) {}).index tree []
                  { edges := (walk_tree_collect fs file_path language now_ms
                      tree [] (some root_id) {}).edges,
                    unresolved := [] }).unresolved) := by
            unfold extract_nodes
            rw [if_neg (by simpa using hp), hparse]
          rw [hx] at he ⊢
          dsimp only at he ⊢
          have hsound0 : IndexSound ({} : CollectAcc).index
              ({} : CollectAcc).nodes :=
            ⟨fun k ids hl => by simp [alLookup] at hl,
             fun k id hl => by simp [alLookup] at hl⟩
          have hext := walk_collect_extends fs file_path language now_ms tree
            [] (some root_id) {}
          have hsound := hext.2.1 hsound0
          have hcalls := walk_calls_sound language _ _ hsound tree []
            { edges := (walk_tree_collect fs file_path language now_ms tree []
                (some root_id) {}).edges, unresolved := [] }
            (by intro id hid; simp at hid) e he
          rcases hcalls with h0 | h0
          · rcases hext.2.2 e h0 with h1 | h1
            · exact absurd h1 (List.not_mem_nil e)
            · exact absurd hkind h1
          · exact ⟨h0.2.1, h0.2.2⟩
  · intro st row e hkind hres
    simp only [resolveRow] at hres
    split at hres
    next target heq =>
      cases hres
      refine ⟨rfl, ?_⟩
      have htmem : target ∈ [target] := List.mem_singleton_self target
      rw [← heq] at htmem
      have hcase := rank_candidates_cases st _ _ _ _ target htmem
      rcases hcase with hc | hc
      · left
        rw [hkind] at hc
        have := filter_by_call_kind_mem hc
        have hmem := (List.mem_filter.mp this.1).1
        exact ⟨target, hmem, rfl, this.2⟩
      · right
        exact ⟨target, hc.1, rfl, hc.2⟩
    next => exact absurd hres (by simp)

/-- The Calls edge extracted from the S5 file. -/
def edge_S5 : Edge :=
  { source := node_id_for_symbol "main.rs" "function" "main.rs::a" 1,
    target := node_id_for_symbol "main.rs" "function" "main.rs::b" 2,
    kind := .calls, metadata := none, line := some 1, column := some 8 }

/-- The edge the resolver promotes on `st_C5`. -/
def edge_C5res : Edge :=
  { source := "f", target := "g", kind := .calls, metadata := none,
    line := some 1, column := some 8 }

/-- Witness for C8: the S5 Calls edge has callable endpoints, and the edge
promoted on `st_C5` keeps its reference source and a callable target. -/
theorem calls_edges_callable_amended_witness :
    (CallableId extract_S5.1 edge_S5.source ∧
      CallableId extract_S5.1 edge_S5.target) ∧
    (edge_C5res.source = row_C5.reference.from_node_id ∧
      (CallableId st_C5.nodes edge_C5res.target ∨
        ExportNodeId st_C5.nodes edge_C5res.target)) :=
  ⟨calls_edges_callable_amended.1 (fun _ => false) (fun _ _ => some tree_S5)
      "main.rs" "fn a(){ b(); }\nfn b(){}" .rust 0
      (node_id_for_symbol "main.rs" "file" "main.rs" 1) edge_S5 (by decide)
      rfl,
   calls_edges_callable_amended.2 st_C5 row_C5 edge_C5res rfl (by decide)⟩

/-- Source text of the TypeScript file `a.ts` of the C8 counterexample. -/
def content_C8a : String := "import { g } from \"mod\";\nfunction f() { g(); }"

/-- CST of `a.ts`: an import of `g` from module `mod`, and a function `f`
whose body calls `g`. -/
def tree_C8a : CST :=
  cstNode "program" content_C8a 0 0 1 21 []
    [ cstNode "import_declaration" "import { g } from \"mod\";" 0 0 0 24
        [("source", cstLeaf "string" "\"mod\"" 0 18),
         ("import_clause",
          cstNode "import_clause" "{ g }" 0 7 0 12 []
            [ cstNode "named_imports" "{ g }" 0 7 0 12 []
                [ cstNode "import_specifier" "g" 0 9 0 10
                    [("name", cstLeaf "identifier" "g" 0 9)]
                    [cstLeaf "identifier" "g" 0 9] ] ])]
        [ cstNode "import_clause" "{ g }" 0 7 0 12 []
            [ cstNode "named_imports" "{ g }" 0 7 0 12 []
                [ cstNode "import_specifier" "g" 0 9 0 10
                    [("name", cstLeaf "identifier" "g" 0 9)]
                    [cstLeaf "identifier" "g" 0 9] ] ],
          cstLeaf "string" "\"mod\"" 0 18 ],
      cstNode "function_declaration" "function f() { g(); }" 1 0 1 21
        [("name", cstLeaf "identifier" "f" 1 9),
         ("parameters", cstLeaf "formal_parameters" "()" 1 10),
         ("body",
          cstNode "statement_block" "{ g(); }" 1 13 1 21 []
            [ cstNode "expression_statement" "g();" 1 15 1 19 []
                [ cstNode "call_expression" "g()" 1 15 1 18
                    [("function", cstLeaf "identifier" "g" 1 15)]
                    [cstLeaf "identifier" "g" 1 15,
                     cstLeaf "arguments" "()" 1 16] ] ])]
        [ cstLeaf "identifier" "f" 1 9, cstLeaf "formal_parameters" "()" 1 10,
          cstNode "statement_block" "{ g(); }" 1 13 1 21 []
            [ cstNode "expression_statement" "g();" 1 15 1 19 []
                [ cstNode "call_expression" "g()" 1 15 1 18
                    [("function", cstLeaf "identifier" "g" 1 15)]
                    [cstLeaf "identifier" "g" 1 15,
                     cstLeaf "arguments" "()" 1 16] ] ] ] ]

/-- Source text of `index.ts`: a re-export of `g` from module `mod`. -/
def content_C8b : String := "export { g } from \"mod\";"

/-- CST of `index.ts`. -/
def tree_C8b : CST :=
  cstNode "program" content_C8b 0 0 0 24 []
    [ cstNode "export_statement" "export { g } from \"mod\";" 0 0 0 24
        [("source", cstLeaf "string" "\"mod\"" 0 18)]
        [ cstNode "export_clause" "{ g }" 0 7 0 12 []
            [ cstNode "export_specifier" "g" 0 9 0 10
                [("name", cstLeaf "identifier" "g" 0 9)]
                [cstLeaf "identifier" "g" 0 9] ],
          cstLeaf "string" "\"mod\"" 0 18 ] ]

/-- Parse oracle of the C8 counterexample project. -/
def parse_C8 (language : Language) (source : String) : Option CST :=
  if source = content_C8a then some tree_C8a
  else if source = content_C8b then some tree_C8b
  else none

/-- The C8 counterexample project. -/
def project_C8 : List ProjFile :=
  [⟨"a.ts", some content_C8a⟩, ⟨"index.ts", some content_C8b⟩]

/-- The store after `index_all` over the C8 counterexample project. -/
def run_C8 : DbState :=
  (index_all (fun _ => false) parse_C8 {} project_C8 {} false).1

/-- Counterexample for C8: after indexing `a.ts` (importing and calling
`g`) and `index.ts` (re-exporting `g` from `mod`), the resolver promotes
the pending call through the export table and writes a Calls edge whose
target is the Export node — not a Function or Method. -/
theorem resolver_calls_edge_targets_export_node :
    (∃ e, e ∈ run_C8.edges ∧ e.kind = .calls ∧
      ExportNodeId run_C8.nodes e.target) ∧
    ¬ (∀ e, e ∈ run_C8.edges → e.kind = .calls →
        CallableId run_C8.nodes e.source ∧
        CallableId run_C8.nodes e.target) := by
  refine ⟨by decide, by decide⟩

/-! ## C6: re-indexing an unchanged project -/

/-- `index_file` skips a file — returning the store untouched — when the
content is too large, the detected language is unsupported, or the stored
File record carries the same content hash. -/
theorem index_file_skip_of (fs : String → Bool)
    (parse : Language → String → Option CST) (cfg : Config) (st : DbState)
    (path content : String)
    (h : (utf8Bytes content).length > cfg.max_file_size ∨
      is_language_supported (detect_language path) = false ∨
      ∃ existing, get_file_record st path = some existing ∧
        existing.content_hash = hash_sha256 content) :
    index_file fs parse cfg st path (some content) = .ok (st, none) := by
  rcases h with hsize | hlang | ⟨existing, hrec, hhash⟩
  · simp only [index_file]
    rw [if_pos hsize]
  · simp only [index_file]
    split
    · rfl
    · rw [hlang]
      simp
  · simp only [index_file]
    split
    · rfl
    · split
      · rfl
      · rw [hrec]
        simp [hhash]

/-- The per-file loop of `index_all` over files that all skip: the store is
untouched, nothing is indexed, every file is counted skipped. -/
theorem index_all_loop_skip (fs : String → Bool)
    (parse : Language → String → Option CST) (cfg : Config) :
    ∀ (project : List ProjFile) (st : DbState) (i s n e : Nat)
      (errs : List String),
    (∀ f ∈ project, index_file fs parse cfg st f.path f.content =
      .ok (st, none)) →
    index_all_loop fs parse cfg project st i s n e errs =
      (st, i, s + project.length, n, e, errs)
  | [], st, i, s, n, e, errs, _ => by simp [index_all_loop]
  | f :: rest, st, i, s, n, e, errs, h => by
      have hf := h f (List.mem_cons_self f rest)
      simp only [index_all_loop, hf]
      rw [index_all_loop_skip fs parse cfg rest st i (s + 1) n e errs
        (fun g hg => h g (List.mem_cons_of_mem f hg))]
      have harr : s + 1 + rest.length = s + (f :: rest).length := by
        simp [List.length_cons]
        omega
      rw [harr]

/-- A resolver pass that promotes nothing returns the store unchanged. -/
theorem resolve_unresolved_noop (st : DbState) (limit : Nat)
    (h : resolvedPairs st limit = []) :
    (resolve_unresolved st limit).1 = st := by
  rw [resolve_unresolved_characterization st limit, h]
  simp [insert_edges_nil, delete_unresolved_refs_nil]

/-- A resolver pass never touches the `nodes` table. -/
theorem resolve_unresolved_nodes (st : DbState) (limit : Nat) :
    (resolve_unresolved st limit).1.nodes = st.nodes := by
  rw [resolve_unresolved_characterization st limit]
  rfl

/-- `resolveRow` reads the store only through its `nodes` table. -/
theorem resolveRow_congr (st st' : DbState) (h : st.nodes = st'.nodes)
    (row : URow) : resolveRow st row = resolveRow st' row := by
  simp only [resolveRow, get_node_by_id, find_nodes_by_name,
    import_match_hint, rank_candidates, export_candidates,
    find_exports_by_module, h]

/-- When at most `cap` references were pending, one resolver pass reaches a
fixpoint: a second pass over the result finds nothing left to promote
(every surviving row already failed to resolve against the unchanged
`nodes` table). -/
theorem resolver_pass_fixpoint (st : DbState) (cap : Nat)
    (h : st.unresolved.length ≤ cap) :
    resolvedPairs (resolve_unresolved st cap).1 cap = [] := by
  have hchar := resolve_unresolved_characterization st cap
  have hnodes : (resolve_unresolved st cap).1.nodes = st.nodes :=
    resolve_unresolved_nodes st cap
  have hunres : (resolve_unresolved st cap).1.unresolved =
      st.unresolved.filter (fun r =>
        ¬ ((resolvedPairs st cap).map (fun p => p.1)).contains r.id) := by
    rw [hchar]
    rfl
  have htake : list_unresolved_refs st cap = st.unresolved := by
    simp [list_unresolved_refs, List.take_of_length_le h]
  unfold resolvedPairs
  rw [List.filterMap_eq_nil_iff]
  intro row hrow
  have hrow' : row ∈ (resolve_unresolved st cap).1.unresolved := by
    simp only [list_unresolved_refs] at hrow
    exact List.take_subset _ _ hrow
  rw [hunres] at hrow'
  obtain ⟨hmem, hid⟩ := List.mem_filter.mp hrow'
  have hid' : ¬ ((resolvedPairs st cap).map
      (fun p => p.1)).contains row.id = true := of_decide_eq_true hid
  have hcongr : resolveRow (resolve_unresolved st cap).1 row =
      resolveRow st row := resolveRow_congr _ _ hnodes row
  rw [hcongr]
  cases he : resolveRow st row with
  | none => rfl
  | some e =>
      exfalso
      apply hid'
      have hpair : (row.id, e) ∈ resolvedPairs st cap := by
        unfold resolvedPairs
        rw [htake]
        exact List.mem_filterMap.mpr ⟨row, hmem, by rw [he]; rfl⟩
      exact List.elem_iff.mpr (List.mem_map.mpr ⟨(row.id, e), hpair, rfl⟩)

/-- C6 (amended): a second `index_all` run with `force = false` over a
project in which every file skips — its bytes unchanged since the previous
successful index (stored content hash matches), or too large, or of an
unsupported language — reports `files_indexed = 0`; and it leaves the
whole store (hence every table's row count) unchanged provided the run's
unconditional trailing resolver pass promotes nothing, which part three
shows is guaranteed whenever at most 10000 references (the pass cap) were
pending at the previous run's resolver pass. -/
theorem index_all_unchanged_noop (fs : String → Bool)
    (parse : Language → String → Option CST) (cfg : Config)
    (project : List ProjFile) (S : DbState)
    (hfiles : ∀ f ∈ project, ∃ c, f.content = some c ∧
      ((utf8Bytes c).length > cfg.max_file_size ∨
       is_language_supported (detect_language f.path) = false ∨
       ∃ existing, get_file_record S f.path = some existing ∧
         existing.content_hash = hash_sha256 c))
    (hres : resolvedPairs S 10000 = []) :
    (index_all fs parse cfg project S false).1 = S ∧
    (index_all fs parse cfg project S false).2.files_indexed = 0 ∧
    (∀ T : DbState, T.unresolved.length ≤ 10000 →
      resolvedPairs (resolve_unresolved T 10000).1 10000 = []) := by
  have hskip : ∀ f ∈ project,
      index_file fs parse cfg S f.path f.content = .ok (S, none) := by
    intro f hf
    obtain ⟨c, hc, hcond⟩ := hfiles f hf
    rw [hc]
    exact index_file_skip_of fs parse cfg S f.path c hcond
  have hloop := index_all_loop_skip fs parse cfg project S 0 0 0 0 [] hskip
  simp only [index_all, Bool.false_eq_true, if_false]
  rw [hloop]
  refine ⟨resolve_unresolved_noop S 10000 hres, rfl, ?_⟩
  intro T hT
  exact resolver_pass_fixpoint T 10000 hT

/-- Witness for C6: one Markdown file over the empty store — skipped as
unsupported, nothing indexed, store unchanged. -/
theorem index_all_unchanged_noop_witness :
    (index_all (fun _ => false) (fun _ _ => none) {}
      [{ path := "a.md", content := some "x" }] {} false).1 = ({} : DbState) ∧
    (index_all (fun _ => false) (fun _ _ => none) {}
      [{ path := "a.md", content := some "x" }] {} false).2.files_indexed
      = 0 ∧
    (∀ T : DbState, T.unresolved.length ≤ 10000 →
      resolvedPairs (resolve_unresolved T 10000).1 10000 = []) :=
  index_all_unchanged_noop (fun _ => false) (fun _ _ => none) {}
    [{ path := "a.md", content := some "x" }] {}
    (by
      intro f hf
      simp only [List.mem_singleton] at hf
      subst hf
      exact ⟨"x", rfl, Or.inr (Or.inl (by decide))⟩)
    rfl

/-! ### C6 counterexample fixtures: an unchanged two-file project that
leaves more than 10000 references pending after its first index -/

/-- `a.rs` of the C6 project: function `a` makes one resolvable call to
`g`, then 9999 calls to the undefined `zzz`, then one more call to `g`. -/
def content_C6a : String :=
  "fn a() \x7b g(); " ++ String.join (List.replicate 9999 "zzz(); ") ++ "g(); \x7d"

/-- `b.rs` of the C6 project: defines the callee `g`. -/
def content_C6b : String := "fn g() {}"

/-- Pulling the accumulator of the UTF-8 fold out front. -/
theorem utf8Bytes_foldr_shift (l : List Char) (X : List Nat) :
    l.foldr (fun c acc => utf8EncodeCharNat c ++ acc) X =
      l.foldr (fun c acc => utf8EncodeCharNat c ++ acc) [] ++ X := by
  induction l with
  | nil => simp
  | cons c l ih => simp [ih, List.append_assoc]

/-- UTF-8 encoding distributes over string concatenation. -/
theorem utf8Bytes_append (a b : String) :
    utf8Bytes (a ++ b) = utf8Bytes a ++ utf8Bytes b := by
  simp only [utf8Bytes, String.data_append, List.foldr_append]
  exact utf8Bytes_foldr_shift a.data (utf8Bytes b)

/-- Byte length of a fold of concatenations. -/
theorem utf8Bytes_foldl_append_length (l : List String) :
    ∀ a : String, (utf8Bytes (l.foldl (fun r s => r ++ s) a)).length =
      (utf8Bytes a).length + (l.map (fun s => (utf8Bytes s).length)).sum := by
  induction l with
  | nil => intro a; simp
  | cons s l ih =>
      intro a
      simp only [List.foldl_cons, ih, utf8Bytes_append, List.length_append,
        List.map_cons, List.sum_cons]
      omega

/-- Byte length of a joined replication. -/
theorem utf8_join_replicate_length (n : Nat) (s : String) :
    (utf8Bytes (String.join (List.replicate n s))).length =
      n * (utf8Bytes s).length := by
  have h0 : (utf8Bytes "").length = 0 := by decide
  rw [show String.join (List.replicate n s) =
    (List.replicate n s).foldl (fun r t => r ++ t) "" from rfl,
    utf8Bytes_foldl_append_length]
  simp [List.map_replicate, List.sum_replicate, smul_eq_mul, h0]

/-- `a.rs` is 70013 bytes: well under the 1 MiB size limit. -/
theorem content_C6a_size : (utf8Bytes content_C6a).length = 70013 := by
  have h1 : (utf8Bytes "fn a() \x7b g(); ").length = 14 := by decide
  have h2 : (utf8Bytes "zzz(); ").length = 7 := by decide
  have h3 : (utf8Bytes "g(); \x7d").length = 6 := by decide
  unfold content_C6a
  rw [utf8Bytes_append, utf8Bytes_append, List.length_append,
    List.length_append, h1, h3, utf8_join_replicate_length, h2]

/-- The two file contents differ (already in byte length). -/
theorem content_C6_ne : content_C6a ≠ content_C6b := by
  intro h
  have h2 : (utf8Bytes content_C6a).length = (utf8Bytes content_C6b).length :=
    by rw [h]
  have hb : (utf8Bytes content_C6b).length = 9 := by decide
  rw [content_C6a_size, hb] at h2
  exact absurd h2 (by decide)

/-- A call expression `<callee>()` at column `col` of line 0, its `function`
field holding the callee identifier. -/
def callExprNode (callee : String) (col : Nat) : CST :=
  cstNode "call_expression" (callee ++ "()") 0 col 0 (col + callee.length + 2)
    [("function", cstLeaf "identifier" callee 0 col)] []

/-- An expression statement `<callee>();` at column `col` of line 0. -/
def callStmt (callee : String) (col : Nat) : CST :=
  cstNode "expression_statement" (callee ++ "();") 0 col
    0 (col + callee.length + 3) [] [callExprNode callee col]

/-- The statement list of `fn a`'s block: `g();`, 9999 `zzz();`, `g();`. -/
def fnBody_C6 : List CST :=
  callStmt "g" 9 ::
    ((List.range 9999).map (fun i => callStmt "zzz" (14 + 7 * i)) ++
      [callStmt "g" 70007])

/-- The CST of `a.rs` with the block's statement list abstracted (the
concrete 10001-statement list is only ever substituted at the very end, so
no proof step has to traverse it). -/
def tree_C6a_of (body : List CST) : CST :=
  cstNode "source_file" content_C6a 0 0 0 70013 []
    [cstNode "function_item" content_C6a 0 0 0 70013
      [("name", cstLeaf "identifier" "a" 0 3)]
      [cstNode "block" "" 0 7 0 70013 [] body]]

/-- The CST of `a.rs`. -/
def tree_C6a : CST := tree_C6a_of fnBody_C6

/-- The CST of `b.rs`. -/
def tree_C6b : CST :=
  cstNode "source_file" content_C6b 0 0 0 9 []
    [cstNode "function_item" content_C6b 0 0 0 9
      [("name", cstLeaf "identifier" "g" 0 3)] []]

/-- The parse oracle of the C6 project. -/
def parse_C6 (language : Language) (source : String) : Option CST :=
  if language = .rust then
    if source = content_C6b then some tree_C6b
    else if source = content_C6a then some tree_C6a
    else none
  else none

/-- The C6 project scan. -/
def project_C6 : List ProjFile :=
  [{ path := "a.rs", content := some content_C6a },
   { path := "b.rs", content := some content_C6b }]

/-- Symbol id of `fn a` in `a.rs`. -/
@[reducible] def idA_C6 : String :=
  node_id_for_symbol "a.rs" "function" "a.rs::a" 1

/-- Symbol id of `fn g` in `b.rs`. -/
@[reducible] def idG_C6 : String :=
  node_id_for_symbol "b.rs" "function" "b.rs::g" 1

/-- File symbol id of `a.rs`. -/
@[reducible] def rootA_C6 : String := node_id_for_symbol "a.rs" "file" "a.rs" 1

/-- File symbol id of `b.rs`. -/
@[reducible] def rootB_C6 : String := node_id_for_symbol "b.rs" "file" "b.rs" 1

/-- The Function node of `fn a`. -/
def nodeA_C6 : Node :=
  mkCollectedNode "a.rs" .rust 0 .function_ "a" "a.rs::a" idA_C6 0 0 0 70013

/-- The Function node of `fn g`. -/
def nodeG_C6 : Node :=
  mkCollectedNode "b.rs" .rust 0 .function_ "g" "b.rs::g" idG_C6 0 0 0 9

/-- The File node of `a.rs`. -/
def fileNodeA_C6 : Node := mk_file_node "a.rs" .rust

/-- The File node of `b.rs`. -/
def fileNodeB_C6 : Node := mk_file_node "b.rs" .rust

/-- The `nodes` table after indexing the C6 project. -/
def nodes_C6 : List Node := [fileNodeA_C6, nodeA_C6, fileNodeB_C6, nodeG_C6]

/-- The Contains edge `a.rs -> fn a`. -/
def edge_containsA_C6 : Edge := mkStructuralEdge .contains rootA_C6 idA_C6 0 0

/-- The Contains edge `b.rs -> fn g`. -/
def edge_containsB_C6 : Edge := mkStructuralEdge .contains rootB_C6 idG_C6 0 0

/-- The in-file symbol index pass 1 builds for `a.rs`. -/
def idx_C6a : SymbolIndex :=
  { by_name := [("a", [idA_C6])],
    by_key := [(node_key .function_ 0 0 "a", idA_C6)],
    callable_ids := [idA_C6] }

/-- An unresolved call reference out of `fn a` at column `col`. -/
def callRef (name : String) (col : Nat) : UnresolvedReference :=
  { from_node_id := idA_C6, reference_name := name, reference_kind := .calls,
    line := 1, column := (col : Int), candidates := none }

/-- The 9999 `zzz` references. -/
def midRefs_C6 : List UnresolvedReference :=
  (List.range 9999).map (fun i => callRef "zzz" (14 + 7 * i))

/-- All 10001 unresolved references extraction leaves for `a.rs`. -/
def refsA_C6 : List UnresolvedReference :=
  callRef "g" 9 :: (midRefs_C6 ++ [callRef "g" 70007])

/-- `walk_tree_collect_list` over a `listOf` is a fold. -/
theorem walk_collect_list_ofList (fs : String → Bool) (fp : String)
    (lang : Language) (now : Int) :
    ∀ (l : List CST) (stack : List String) (pid : Option String)
      (acc : CollectAcc),
    walk_tree_collect_list fs fp lang now (listOf l) stack pid acc =
      l.foldl (fun a c => walk_tree_collect fs fp lang now c stack pid a) acc
  | [], _, _, _ => by simp [listOf, walk_tree_collect_list]
  | c :: l, stack, pid, acc => by
      simp only [listOf, walk_tree_collect_list, List.foldl_cons]
      exact walk_collect_list_ofList fs fp lang now l stack pid _

/-- `walk_tree_calls_list` over a `listOf` is a fold. -/
theorem walk_calls_list_ofList (lang : Language) (idx : SymbolIndex) :
    ∀ (l : List CST) (scope : List String) (acc : CallsAcc),
    walk_tree_calls_list lang idx (listOf l) scope acc =
      l.foldl (fun a c => walk_tree_calls lang idx c scope a) acc
  | [], _, _ => by simp [listOf, walk_tree_calls_list]
  | c :: l, scope, acc => by
      simp only [listOf, walk_tree_calls_list, List.foldl_cons]
      exact walk_calls_list_ofList lang idx l scope _

/-- A fold whose step fixes every list element is the identity. -/
theorem foldl_fixed {α β : Type} (f : β → α → β) :
    ∀ (l : List α) (b : β), (∀ b₀ a, a ∈ l → f b₀ a = b₀) →
      l.foldl f b = b
  | [], _, _ => rfl
  | a :: l, b, h => by
      rw [List.foldl_cons, h b a (List.mem_cons_self a l)]
      exact foldl_fixed f l b (fun b₀ x hx => h b₀ x (List.mem_cons_of_mem a hx))

/-- Pass 1 collects nothing from a call statement (no symbol kinds). -/
theorem walk_collect_callStmt (fs : String → Bool) (fp : String) (now : Int)
    (callee : String) (col : Nat) (stack : List String) (pid : Option String)
    (acc : CollectAcc) :
    walk_tree_collect fs fp .rust now (callStmt callee col) stack pid acc =
      acc := by
  simp [callStmt, callExprNode, cstNode, cstLeaf, walk_tree_collect,
    walk_tree_collect_list, map_node_kind, listOf, fieldsOf]

/-- Pass 2 turns a `zzz();` statement under scope `fn a` into one
unresolved reference without candidates. -/
theorem walk_calls_callStmt_zzz (col : Nat) (acc : CallsAcc) :
    walk_tree_calls .rust idx_C6a (callStmt "zzz" col) [idA_C6] acc =
      { acc with unresolved := acc.unresolved ++ [callRef "zzz" col] } := by
  have h1 : strTrim "zzz" = "zzz" := by decide
  have h2 : lastSegment "zzz" "::" = "zzz" := by decide
  have h3 : lastSegment "zzz" "." = "zzz" := by decide
  simp [callStmt, callExprNode, cstNode, cstLeaf, walk_tree_calls,
    walk_tree_calls_list, calls_scope_push, handle_call_expression,
    is_call_expression, map_node_kind, call_name, child_by_field_name,
    child_by_field_name.go, node_name, CST.kind, CST.text, CST.startRow,
    CST.startCol, CST.fields, CST.children, fieldsOf, listOf, alLookup,
    idx_C6a, callRef, List.getLast?, h1, h2, h3]

/-- Pass 2 turns a `g();` statement under scope `fn a` into one unresolved
reference without candidates (`g` is not in `a.rs`'s in-file index). -/
theorem walk_calls_callStmt_g (col : Nat) (acc : CallsAcc) :
    walk_tree_calls .rust idx_C6a (callStmt "g" col) [idA_C6] acc =
      { acc with unresolved := acc.unresolved ++ [callRef "g" col] } := by
  have h1 : strTrim "g" = "g" := by decide
  have h2 : lastSegment "g" "::" = "g" := by decide
  have h3 : lastSegment "g" "." = "g" := by decide
  simp [callStmt, callExprNode, cstNode, cstLeaf, walk_tree_calls,
    walk_tree_calls_list, calls_scope_push, handle_call_expression,
    is_call_expression, map_node_kind, call_name, child_by_field_name,
    child_by_field_name.go, node_name, CST.kind, CST.text, CST.startRow,
    CST.startCol, CST.fields, CST.children, fieldsOf, listOf, alLookup,
    idx_C6a, callRef, List.getLast?, h1, h2, h3]

/-- Folding pass 2 over a block of `zzz();` statements appends their
references in order. -/
theorem calls_fold_zzz :
    ∀ (ns : List Nat) (acc : CallsAcc),
    List.foldl (fun a c => walk_tree_calls .rust idx_C6a c [idA_C6] a) acc
        (ns.map (fun i => callStmt "zzz" (14 + 7 * i))) =
      { acc with
          unresolved := acc.unresolved ++ ns.map (fun i => callRef "zzz" (14 + 7 * i)) }
  | [], acc => by simp
  | i :: ns, acc => by
      simp only [List.map_cons, List.foldl_cons, walk_calls_callStmt_zzz]
      rw [calls_fold_zzz ns]
      simp [List.append_assoc]

/-- The fold of pass 1 over `fn a`'s statements collects nothing. -/
theorem collect_fnBody_C6 (acc : CollectAcc) :
    walk_tree_collect_list (fun _ => false) "a.rs" .rust 0 (listOf fnBody_C6)
      [] (some rootA_C6) acc = acc := by
  rw [walk_collect_list_ofList]
  refine foldl_fixed _ fnBody_C6 acc ?_
  intro b a ha
  simp only [fnBody_C6, List.mem_cons, List.mem_append, List.mem_map,
    List.mem_singleton, List.mem_range] at ha
  rcases ha with h | ⟨i, _, h⟩ | h | h
  · rw [h]; exact walk_collect_callStmt _ _ _ _ _ _ _ _
  · rw [← h]; exact walk_collect_callStmt _ _ _ _ _ _ _ _
  · rw [h]; exact walk_collect_callStmt _ _ _ _ _ _ _ _
  · exact absurd h (List.not_mem_nil a)

/-- Pass 1 over `a.rs` with an abstract statement list that collects
nothing: one Function node, one Contains edge, the index. -/
theorem collect_tree_C6 (body : List CST)
    (hbody : ∀ acc₀ : CollectAcc,
      walk_tree_collect_list (fun _ => false) "a.rs" .rust 0 (listOf body)
        [] (some rootA_C6) acc₀ = acc₀) :
    walk_tree_collect (fun _ => false) "a.rs" .rust 0 (tree_C6a_of body) []
      (some rootA_C6) {} =
      { nodes := [nodeA_C6], edges := [edge_containsA_C6],
        index := idx_C6a } := by
  have hlow : to_ascii_lowercase (nodeKindDebug .function_) = "function" := by
    decide
  simp [tree_C6a_of, cstNode, cstLeaf, walk_tree_collect,
    walk_tree_collect_list, map_node_kind, node_name, child_by_field_name,
    child_by_field_name.go, CST.kind, CST.text, CST.startRow, CST.startCol,
    CST.endRow, CST.endCol, CST.fields, CST.children, fieldsOf, listOf,
    hbody, hlow, is_callable_kind, alInsert, alPush, nodeA_C6,
    edge_containsA_C6, idx_C6a]

/-- Pass 1 over `a.rs`. -/
theorem collect_C6a :
    walk_tree_collect (fun _ => false) "a.rs" .rust 0 tree_C6a []
      (some rootA_C6) {} =
      { nodes := [nodeA_C6], edges := [edge_containsA_C6],
        index := idx_C6a } :=
  collect_tree_C6 fnBody_C6 collect_fnBody_C6

/-- The fold of pass 2 over `fn a`'s statements appends the 10001
references in order. -/
theorem calls_fnBody_C6 (acc₀ : CallsAcc) :
    walk_tree_calls_list .rust idx_C6a (listOf fnBody_C6) [idA_C6] acc₀ =
      { acc₀ with unresolved := acc₀.unresolved ++ refsA_C6 } := by
  rw [walk_calls_list_ofList]
  simp only [fnBody_C6, List.foldl_cons, List.foldl_append,
    walk_calls_callStmt_g, calls_fold_zzz]
  simp only [List.foldl_cons, List.foldl_nil, walk_calls_callStmt_g]
  simp [refsA_C6, midRefs_C6, List.append_assoc]

/-- Pass 2 over `a.rs` with an abstract statement list: the scope stack
under `fn a` is its id, and the statements contribute their references. -/
theorem calls_tree_C6 (body : List CST) (refs : List UnresolvedReference)
    (hbody : ∀ acc₀ : CallsAcc,
      walk_tree_calls_list .rust idx_C6a (listOf body) [idA_C6] acc₀ =
        { acc₀ with unresolved := acc₀.unresolved ++ refs })
    (acc : CallsAcc) :
    walk_tree_calls .rust idx_C6a (tree_C6a_of body) [] acc =
      { acc with unresolved := acc.unresolved ++ refs } := by
  have hkey : alLookup idx_C6a.by_key (node_key .function_ 0 0 "a") =
      some idA_C6 := by
    simp [idx_C6a, alLookup]
  simp [tree_C6a_of, cstNode, cstLeaf, walk_tree_calls, walk_tree_calls_list,
    calls_scope_push, is_call_expression, map_node_kind, node_name,
    child_by_field_name, child_by_field_name.go, CST.kind, CST.text,
    CST.startRow, CST.startCol, CST.fields, CST.children, fieldsOf, listOf,
    is_callable_kind, hkey, hbody]

/-- Pass 2 over `a.rs`. -/
theorem calls_C6a (acc : CallsAcc) :
    walk_tree_calls .rust idx_C6a tree_C6a [] acc =
      { acc with unresolved := acc.unresolved ++ refsA_C6 } :=
  calls_tree_C6 fnBody_C6 refsA_C6 calls_fnBody_C6 acc

/-- The oracle parses `a.rs`. -/
theorem parse_C6a_eq : parse_C6 .rust content_C6a = some tree_C6a := by
  unfold parse_C6
  rw [if_pos rfl, if_neg content_C6_ne, if_pos rfl]

/-- The oracle parses `b.rs`. -/
theorem parse_C6b_eq : parse_C6 .rust content_C6b = some tree_C6b := by
  simp [parse_C6]

/-- Extraction output for `a.rs`. -/
theorem extract_C6a :
    extract_nodes (fun _ => false) parse_C6 "a.rs" content_C6a .rust 0
      (node_id_for_symbol "a.rs" "file" "a.rs" 1) =
      ([nodeA_C6], [edge_containsA_C6], refsA_C6) := by
  simp [extract_nodes, parser_available, parse_C6a_eq, collect_C6a,
    calls_C6a]

/-- Extraction output for `b.rs`. -/
theorem extract_C6b :
    extract_nodes (fun _ => false) parse_C6 "b.rs" content_C6b .rust 0
      (node_id_for_symbol "b.rs" "file" "b.rs" 1) =
      ([nodeG_C6], [edge_containsB_C6], []) := by
  decide

/-- The File record `index_file` writes for `a.rs`. -/
def recA_C6 : FileRecord := mk_file_record "a.rs" content_C6a .rust 2

/-- The File record `index_file` writes for `b.rs`. -/
def recB_C6 : FileRecord := mk_file_record "b.rs" content_C6b .rust 2

/-- The store after indexing `a.rs` into the empty store. -/
def S1a_C6 : DbState :=
  { files := [recA_C6], nodes := [fileNodeA_C6, nodeA_C6],
    edges := [edge_containsA_C6], unresolved := enumRows 1 refsA_C6,
    next_ref_id := 10002 }

/-- The store after indexing `a.rs` and `b.rs`, before the resolver pass. -/
def S1pre_C6 : DbState :=
  { files := [recA_C6, recB_C6], nodes := nodes_C6,
    edges := [edge_containsA_C6, edge_containsB_C6],
    unresolved := enumRows 1 refsA_C6, next_ref_id := 10002 }

/-- The Calls edge `fn a -> fn g` the resolver promotes for the call at
column `col`. -/
def edgeAG_C6 (col : Nat) : Edge :=
  { source := idA_C6, target := idG_C6, kind := .calls, metadata := none,
    line := some 1, column := some (col : Int) }

/-- The table row of the second `g();` call (autoincrement id 10001 — just
beyond the first scan window). -/
def rowG2_C6 : URow := { id := 10001, reference := callRef "g" 70007 }

/-- The store after the first `index_all` run. -/
def S1_C6 : DbState :=
  { files := [recA_C6, recB_C6], nodes := nodes_C6,
    edges := [edge_containsA_C6, edge_containsB_C6, edgeAG_C6 9],
    unresolved := enumRows 2 midRefs_C6 ++ [rowG2_C6],
    next_ref_id := 10002 }

/-- The store after the second `index_all` run. -/
def S2_C6 : DbState :=
  { files := [recA_C6, recB_C6], nodes := nodes_C6,
    edges := [edge_containsA_C6, edge_containsB_C6, edgeAG_C6 9,
      edgeAG_C6 70007],
    unresolved := enumRows 2 midRefs_C6, next_ref_id := 10002 }

/-- Indexing `a.rs` into the empty store. -/
theorem index_file_C6a :
    index_file (fun _ => false) parse_C6 {} {} "a.rs" (some content_C6a) =
      .ok (S1a_C6, some (2, 1)) := by
  have hdet : detect_language "a.rs" = .rust := by decide
  have hsize : ¬ ((utf8Bytes content_C6a).length > ({} : Config).max_file_size) := by
    rw [content_C6a_size]
    decide
  simp [index_file, hdet, hsize, is_language_supported, get_file_record,
    extract_C6a, insert_nodes, insert_edges, insert_unresolved_refs,
    upsert_file, S1a_C6, refsA_C6, midRefs_C6, recA_C6, fileNodeA_C6]

/-- Indexing `b.rs` next. -/
theorem index_file_C6b :
    index_file (fun _ => false) parse_C6 {} S1a_C6 "b.rs"
      (some content_C6b) = .ok (S1pre_C6, some (2, 1)) := by
  have hdet : detect_language "b.rs" = .rust := by decide
  have hsize : ¬ ((utf8Bytes content_C6b).length > ({} : Config).max_file_size) := by
    decide
  simp [index_file, hdet, hsize, is_language_supported, get_file_record,
    List.find?, extract_C6b, insert_nodes, insert_edges,
    insert_unresolved_refs, upsert_file, S1a_C6, S1pre_C6, nodes_C6,
    recA_C6, recB_C6, mk_file_record, fileNodeB_C6]

/-- One step of the `index_all` per-file loop on a successfully indexed
file. -/
theorem index_all_loop_cons_indexed (fs : String → Bool)
    (parse : Language → String → Option CST) (cfg : Config) (f : ProjFile)
    (rest : List ProjFile) (st st' : DbState) (nc ec : Nat)
    (i s n e : Nat) (errs : List String)
    (h : index_file fs parse cfg st f.path f.content =
      .ok (st', some (nc, ec)))
    (hnc : 0 < nc) :
    index_all_loop fs parse cfg (f :: rest) st i s n e errs =
      index_all_loop fs parse cfg rest st' (i + 1) s (n + nc) (e + ec)
        errs := by
  simp only [index_all_loop, h]
  rw [if_pos hnc]

/-- One step of the `index_all` per-file loop on a skipped file. -/
theorem index_all_loop_cons_skipped (fs : String → Bool)
    (parse : Language → String → Option CST) (cfg : Config) (f : ProjFile)
    (rest : List ProjFile) (st st' : DbState) (i s n e : Nat)
    (errs : List String)
    (h : index_file fs parse cfg st f.path f.content = .ok (st', none)) :
    index_all_loop fs parse cfg (f :: rest) st i s n e errs =
      index_all_loop fs parse cfg rest st' i (s + 1) n e errs := by
  simp only [index_all_loop, h]

/-- The per-file loop of the first run. -/
theorem loop1_C6 :
    index_all_loop (fun _ => false) parse_C6 {} project_C6 {} 0 0 0 0 [] =
      (S1pre_C6, 2, 0, 4, 2, []) := by
  unfold project_C6
  rw [index_all_loop_cons_indexed (fun _ => false) parse_C6 {}
    { path := "a.rs", content := some content_C6a }
    [{ path := "b.rs", content := some content_C6b }] {} S1a_C6 2 1
    0 0 0 0 [] index_file_C6a (by decide)]
  rw [index_all_loop_cons_indexed (fun _ => false) parse_C6 {}
    { path := "b.rs", content := some content_C6b } [] S1a_C6 S1pre_C6 2 1
    _ _ _ _ _ index_file_C6b (by decide)]
  rw [index_all_loop]

/-- `enumRows` distributes over append. -/
theorem enumRows_append :
    ∀ (l1 l2 : List UnresolvedReference) (k : Int),
    enumRows k (l1 ++ l2) = enumRows k l1 ++ enumRows (k + l1.length) l2
  | [], l2, k => by simp [enumRows]
  | r :: l1, l2, k => by
      simp only [List.cons_append, enumRows, List.length_cons,
        List.append_eq]
      rw [enumRows_append l1 l2 (k + 1)]
      have harg : (k + 1) + (l1.length : Int) =
          k + ((l1.length + 1 : Nat) : Int) := by
        push_cast
        ring
      rw [harg]

/-- `enumRows` keeps the length. -/
theorem enumRows_length : ∀ (l : List UnresolvedReference) (k : Int),
    (enumRows k l).length = l.length
  | [], _ => rfl
  | r :: l, k => by simp [enumRows, enumRows_length l (k + 1)]

/-- A row of `enumRows` carries a reference of the underlying list. -/
theorem enumRows_mem_ref : ∀ (l : List UnresolvedReference) (k : Int)
    (row : URow), row ∈ enumRows k l → row.reference ∈ l
  | [], _, _, h => by simp [enumRows] at h
  | r :: l, k, row, h => by
      simp only [enumRows, List.mem_cons] at h
      rcases h with h | h
      · rw [h]; exact List.mem_cons_self _ _
      · exact List.mem_cons_of_mem _ (enumRows_mem_ref l (k + 1) row h)

/-- Ids assigned by `enumRows k l` lie in `[k, k + l.length)`. -/
theorem enumRows_id_bounds : ∀ (l : List UnresolvedReference) (k : Int)
    (row : URow), row ∈ enumRows k l → k ≤ row.id ∧ row.id < k + l.length
  | [], _, _, h => by simp [enumRows] at h
  | r :: l, k, row, h => by
      simp only [enumRows, List.mem_cons] at h
      rcases h with h | h
      · rw [h]
        simp only [List.length_cons]
        push_cast
        omega
      · obtain ⟨h1, h2⟩ := enumRows_id_bounds l (k + 1) row h
        simp only [List.length_cons]
        push_cast at h2 ⊢
        omega

/-- Deleting a set of ids outside the id range of an `enumRows` block keeps
every row of the block. -/
theorem enumRows_filter_keep (l : List UnresolvedReference) (k : Int)
    (ids : List Int) (h : ∀ i ∈ ids, i < k ∨ k + l.length ≤ i) :
    (enumRows k l).filter (fun r => ¬ ids.contains r.id) = enumRows k l := by
  rw [List.filter_eq_self]
  intro row hrow
  obtain ⟨h1, h2⟩ := enumRows_id_bounds l k row hrow
  rw [decide_eq_true_eq]
  intro hc
  have hm : row.id ∈ ids := by simpa using hc
  rcases h row.id hm with hlt | hge
  · omega
  · omega

/-- Resolving a pending `g` call against the indexed project: `fn g` of
`b.rs` is the unique callable candidate (same-directory bucket), so the row
is promoted to a Calls edge. -/
theorem resolveRow_g_C6 (st : DbState) (hst : st.nodes = nodes_C6) (k : Int)
    (col : Nat) :
    resolveRow st { id := k, reference := callRef "g" col } =
      some (edgeAG_C6 col) := by
  have hne1 : ¬ (node_id_for_symbol "a.rs" "file" "a.rs" 1 = idA_C6) := by
    decide
  have hfa : fileNameOf "a.rs" = "a.rs" := by decide
  have hfb : fileNameOf "b.rs" = "b.rs" := by decide
  have hpa : parentDir "a.rs" = some "" := by decide
  have hpb : parentDir "b.rs" = some "" := by decide
  simp [resolveRow, get_node_by_id, find_nodes_by_name, import_match_hint,
    import_match_hint.go, rank_candidates, rank_buckets, hint_matches,
    export_candidates, find_exports_by_module, filter_by_call_kind,
    filter_by_call_kind.go, hst, nodes_C6, fileNodeA_C6, fileNodeB_C6,
    nodeA_C6, nodeG_C6, mk_file_node, mkCollectedNode, callRef, edgeAG_C6,
    List.find?, hne1, hfa, hfb, hpa, hpb]

/-- Resolving a pending `zzz` call: no node of the project is named `zzz`,
so the row stays unresolved. -/
theorem resolveRow_zzz_C6 (st : DbState) (hst : st.nodes = nodes_C6)
    (k : Int) (col : Nat) :
    resolveRow st { id := k, reference := callRef "zzz" col } = none := by
  have hne1 : ¬ (node_id_for_symbol "a.rs" "file" "a.rs" 1 = idA_C6) := by
    decide
  have hfa : fileNameOf "a.rs" = "a.rs" := by decide
  have hfb : fileNameOf "b.rs" = "b.rs" := by decide
  simp [resolveRow, get_node_by_id, find_nodes_by_name, import_match_hint,
    import_match_hint.go, rank_candidates, rank_buckets, hint_matches,
    filter_by_call_kind, filter_by_call_kind.go, hst, nodes_C6,
    fileNodeA_C6, fileNodeB_C6, nodeA_C6, nodeG_C6, mk_file_node,
    mkCollectedNode, callRef, List.find?, hne1, hfa, hfb]

/-- `enumRows` on the empty list. -/
theorem enumRows_nil (k : Int) : enumRows k [] = [] := rfl

/-- One step of `enumRows`. -/
theorem enumRows_cons (k : Int) (r : UnresolvedReference)
    (rest : List UnresolvedReference) :
    enumRows k (r :: rest) =
      { id := k, reference := r } :: enumRows (k + 1) rest := rfl

/-- The `unresolved_refs` table after run 1's per-file loop: rowids 1 to
10001 in insertion order. -/
theorem table1_C6 : enumRows 1 refsA_C6 =
    { id := 1, reference := callRef "g" 9 } ::
      (enumRows 2 midRefs_C6 ++ [rowG2_C6]) := by
  have hml : (midRefs_C6.length : Int) = 9999 := by
    simp [midRefs_C6]
  rw [show refsA_C6 =
    callRef "g" 9 :: (midRefs_C6 ++ [callRef "g" 70007]) from rfl]
  rw [enumRows_cons, enumRows_append, hml]
  norm_num
  rw [enumRows_cons, enumRows_nil,
    show rowG2_C6 = { id := 10001, reference := callRef "g" 70007 } from rfl]

/-- Run 1's resolver pass scans rows 1 to 10000 — the trailing `g` call at
rowid 10001 is beyond its window. -/
theorem window1_C6 : list_unresolved_refs S1pre_C6 10000 =
    { id := 1, reference := callRef "g" 9 } :: enumRows 2 midRefs_C6 := by
  have h9 : (enumRows 2 midRefs_C6).length = 9999 := by
    rw [enumRows_length]
    simp [midRefs_C6]
  simp only [list_unresolved_refs, S1pre_C6]
  rw [table1_C6]
  rw [show (10000 : Nat) = 9999 + 1 from rfl]
  rw [List.take_succ_cons]
  rw [List.take_left' h9]

/-- All `zzz` rows of an `enumRows` block resolve to nothing. -/
theorem filterMap_zzz_C6 (st : DbState) (hst : st.nodes = nodes_C6)
    (k : Int) :
    (enumRows k midRefs_C6).filterMap
      (fun row => (resolveRow st row).map (fun e => (row.id, e))) = [] := by
  rw [List.filterMap_eq_nil_iff]
  intro row hrow
  have href := enumRows_mem_ref _ _ _ hrow
  simp only [midRefs_C6, List.mem_map, List.mem_range] at href
  obtain ⟨i, _, heq⟩ := href
  obtain ⟨rid, rref⟩ := row
  simp only at heq
  subst heq
  rw [resolveRow_zzz_C6 st hst rid (14 + 7 * i)]
  rfl

/-- Run 1's pass promotes exactly the first `g` call. -/
theorem pairs1_C6 : resolvedPairs S1pre_C6 10000 = [(1, edgeAG_C6 9)] := by
  have hnil := filterMap_zzz_C6 S1pre_C6 rfl 2
  simp [resolvedPairs, window1_C6, resolveRow_g_C6 S1pre_C6 rfl, hnil]

/-- The store after run 1's resolver pass. -/
theorem resolve1_C6 : (resolve_unresolved S1pre_C6 10000).1 = S1_C6 := by
  rw [resolve_unresolved_characterization, pairs1_C6]
  have hkeep : (enumRows 2 midRefs_C6).filter
      (fun r => ¬ [(1 : Int)].contains r.id) = enumRows 2 midRefs_C6 := by
    apply enumRows_filter_keep
    intro i hi
    simp only [List.mem_singleton] at hi
    subst hi
    left
    decide
  simp only [List.map_cons, List.map_nil, insert_edges,
    delete_unresolved_refs, S1pre_C6, S1_C6]
  rw [table1_C6]
  simp [List.filter_cons, List.filter_append, hkeep, rowG2_C6]
  intro a ha
  have h2 := (enumRows_id_bounds midRefs_C6 2 a ha).1
  omega

/-- The first `index_all` run over the C6 project. -/
def run1_C6 : DbState × IndexResult :=
  index_all (fun _ => false) parse_C6 {} project_C6 {} false

/-- Run 1's report: success, both files indexed. -/
def res1_C6 : IndexResult :=
  { success := true, files_indexed := 2, files_skipped := 0,
    nodes_created := 4, edges_created := 2, errors := [] }

/-- Run 1 in full. -/
theorem run1_C6_eq : run1_C6 = (S1_C6, res1_C6) := by
  unfold run1_C6
  simp only [index_all, Bool.false_eq_true, if_false, loop1_C6]
  simp [resolve1_C6, res1_C6]

/-- Looking up `a.rs` in the run-1 store finds its File record. -/
theorem get_file_record_S1_C6a :
    get_file_record S1_C6 "a.rs" = some recA_C6 := by
  show List.find? (fun f => f.path = "a.rs") [recA_C6, recB_C6] = some recA_C6
  simp only [List.find?, recA_C6, recB_C6, mk_file_record, decide_True,
    decide_False]

/-- Looking up `b.rs` in the run-1 store finds its File record. -/
theorem get_file_record_S1_C6b :
    get_file_record S1_C6 "b.rs" = some recB_C6 := by
  show List.find? (fun f => f.path = "b.rs") [recA_C6, recB_C6] = some recB_C6
  rw [List.find?_cons_of_neg, List.find?_cons_of_pos]
  · simp only [recB_C6, mk_file_record, decide_True]
  · simp only [recA_C6, mk_file_record]
    decide

/-- The stored hash of `a.rs` is the hash of its (unchanged) content. -/
theorem recA_C6_hash : recA_C6.content_hash = hash_sha256 content_C6a := by
  simp only [recA_C6, mk_file_record]

/-- The stored hash of `b.rs` is the hash of its (unchanged) content. -/
theorem recB_C6_hash : recB_C6.content_hash = hash_sha256 content_C6b := by
  simp only [recB_C6, mk_file_record]

/-- In run 2, `a.rs` is skipped: its stored content hash matches. -/
theorem skipA_C6 :
    index_file (fun _ => false) parse_C6 {} S1_C6 "a.rs"
      (some content_C6a) = .ok (S1_C6, none) := by
  apply index_file_skip_of
  right; right
  exact ⟨recA_C6, get_file_record_S1_C6a, recA_C6_hash⟩

/-- In run 2, `b.rs` is skipped: its stored content hash matches. -/
theorem skipB_C6 :
    index_file (fun _ => false) parse_C6 {} S1_C6 "b.rs"
      (some content_C6b) = .ok (S1_C6, none) := by
  apply index_file_skip_of
  right; right
  exact ⟨recB_C6, get_file_record_S1_C6b, recB_C6_hash⟩

/-- The per-file loop of run 2 skips both files and leaves the store
untouched. -/
theorem loop2_C6 :
    index_all_loop (fun _ => false) parse_C6 {} project_C6 S1_C6 0 0 0 0 [] =
      (S1_C6, 0, 2, 0, 0, []) := by
  unfold project_C6
  rw [index_all_loop_cons_skipped (fun _ => false) parse_C6 {}
    { path := "a.rs", content := some content_C6a }
    [{ path := "b.rs", content := some content_C6b }] S1_C6 S1_C6
    0 0 0 0 [] skipA_C6]
  rw [index_all_loop_cons_skipped (fun _ => false) parse_C6 {}
    { path := "b.rs", content := some content_C6b } [] S1_C6 S1_C6
    _ _ _ _ _ skipB_C6]
  rw [index_all_loop]

/-- Run 2's resolver pass scans the whole remaining table — a window that
now starts at rowid 2 and includes rowid 10001. -/
theorem window2_C6 : list_unresolved_refs S1_C6 10000 =
    enumRows 2 midRefs_C6 ++ [rowG2_C6] := by
  simp only [list_unresolved_refs, S1_C6]
  apply List.take_of_length_le
  rw [List.length_append, enumRows_length]
  simp [midRefs_C6]

/-- Run 2's pass promotes the `g` call at rowid 10001. -/
theorem pairs2_C6 : resolvedPairs S1_C6 10000 =
    [(10001, edgeAG_C6 70007)] := by
  have hnil := filterMap_zzz_C6 S1_C6 rfl 2
  simp [resolvedPairs, window2_C6, List.filterMap_append, hnil,
    resolveRow_g_C6 S1_C6 rfl, rowG2_C6]

/-- The store after run 2's resolver pass: one more Calls edge, one less
pending row. -/
theorem resolve2_C6 : (resolve_unresolved S1_C6 10000).1 = S2_C6 := by
  rw [resolve_unresolved_characterization, pairs2_C6]
  simp only [List.map_cons, List.map_nil, insert_edges,
    delete_unresolved_refs, S1_C6, S2_C6]
  simp [List.filter_append, rowG2_C6]
  intro a ha
  have h2 := (enumRows_id_bounds midRefs_C6 2 a ha).2
  have hml : (midRefs_C6.length : Int) = 9999 := by simp [midRefs_C6]
  rw [hml] at h2
  omega

/-- The second `index_all` run over the unchanged C6 project. -/
def run2_C6 : DbState × IndexResult :=
  index_all (fun _ => false) parse_C6 {} project_C6 run1_C6.1 false

/-- Run 2's report: nothing indexed, both files skipped, no errors. -/
def res2_C6 : IndexResult :=
  { success := true, files_indexed := 0, files_skipped := 2,
    nodes_created := 0, edges_created := 0, errors := [] }

/-- Run 2 in full. -/
theorem run2_C6_eq : run2_C6 = (S2_C6, res2_C6) := by
  unfold run2_C6
  rw [show run1_C6.1 = S1_C6 from by rw [run1_C6_eq]]
  simp only [index_all, Bool.false_eq_true, if_false, loop2_C6]
  simp [resolve2_C6, res2_C6]

/-- Counterexample for C6: a two-file project whose first `index_all` run
succeeds but leaves 10001 pending references — one resolvable `g` call
beyond the resolver's scan cap of 10000.  In the second run with
`force = false`, every file's bytes are unchanged (each stored content
hash matches) and the run reports `files_indexed = 0`, yet its
unconditional trailing resolver pass scans a window that has shifted past
the rows deleted in run 1, promotes the `g` call at rowid 10001, and
changes the store's row counts: `edges` grows by one and
`unresolved_refs` shrinks by one. -/
theorem reindex_unchanged_project_changes_row_counts :
    (∀ f ∈ project_C6, ∃ c, f.content = some c ∧
      ∃ existing, get_file_record run1_C6.1 f.path = some existing ∧
        existing.content_hash = hash_sha256 c) ∧
    run1_C6.2.success = true ∧
    run2_C6.2.files_indexed = 0 ∧
    run2_C6.1.edges.length = run1_C6.1.edges.length + 1 ∧
    run2_C6.1.unresolved.length + 1 = run1_C6.1.unresolved.length := by
  refine ⟨?_, ?_, ?_, ?_, ?_⟩
  · intro f hf
    rw [run1_C6_eq]
    simp only [project_C6, List.mem_cons] at hf
    rcases hf with rfl | rfl | h
    · exact ⟨content_C6a, rfl, recA_C6, get_file_record_S1_C6a, recA_C6_hash⟩
    · exact ⟨content_C6b, rfl, recB_C6, get_file_record_S1_C6b, recB_C6_hash⟩
    · exact absurd h (List.not_mem_nil f)
  · rw [run1_C6_eq]
    rfl
  · rw [run2_C6_eq]
    rfl
  · rw [run1_C6_eq, run2_C6_eq]
    simp [S1_C6, S2_C6]
  · rw [run1_C6_eq, run2_C6_eq]
    have hml : midRefs_C6.length = 9999 := by simp [midRefs_C6]
    simp [S1_C6, S2_C6, List.length_append, enumRows_length, hml]

end Coraline
